import Mathlib

/-!
Verification of the power-quality analysis engine (`backend/analyzer.py`).

The engine is embedded shallowly:

* Machine floats are modelled by exact rationals.  Because the kernel cannot
  reduce `Rat`'s normalising arithmetic, we use `Q`, an unnormalised fraction
  type (integer numerator, positive integer denominator) whose operations and
  comparisons are kernel-computable; `Q.toRat` maps it to `ℚ` and a small
  algebra of lemmas transports facts between the two.
* pandas `DataFrame`s become `Frame` (an ordered association list of named
  cell columns); cells are numeric, textual or missing (`NaN`).
* Fallible code (`raise ValueError`, the `AttributeError` that
  `series_to_json_list` hits on a missing column) is modelled with
  `Except String`.
* `np.sqrt` forces the TDD value itself into `ℝ` (`tddR`); the comparison the
  compliance checker performs against it is realised by the kernel-computable
  `tddExceeds`, proved equivalent to the real-number comparison.
-/

/-- Unnormalised rational number: numerator over a positive denominator.
Stands in for Python floats; all operations reduce in the kernel. -/
structure Q where
  num : Int
  den : Int
  pos : 0 < den
deriving DecidableEq

/-- Embed an integer. -/
def Q.ofInt (n : Int) : Q := ⟨n, 1, Int.one_pos⟩

/-- The zero value (also the result Python code reaches via `fillna(0)`). -/
def Q.zero : Q := Q.ofInt 0

/-- Build `n / d`; a non-positive `d` falls back to denominator 1 (never used
with one in this development). -/
def qq (n d : Int) : Q := if h : 0 < d then ⟨n, d, h⟩ else ⟨n, 1, Int.one_pos⟩

def Q.add (a b : Q) : Q := ⟨a.num * b.den + b.num * a.den, a.den * b.den, Int.mul_pos a.pos b.pos⟩

def Q.neg (a : Q) : Q := ⟨-a.num, a.den, a.pos⟩

def Q.sub (a b : Q) : Q := a.add b.neg

def Q.mul (a b : Q) : Q := ⟨a.num * b.num, a.den * b.den, Int.mul_pos a.pos b.pos⟩

/-- Division; division by zero yields zero (every division in the analyzer is
guarded, so the convention is never exercised there). -/
def Q.div (a b : Q) : Q :=
  if h : 0 < b.num then ⟨a.num * b.den, a.den * b.num, Int.mul_pos a.pos h⟩
  else if h2 : b.num < 0 then ⟨-(a.num * b.den), a.den * -b.num, Int.mul_pos a.pos (by omega)⟩
  else Q.zero

/-- Value ordering, by cross multiplication (denominators are positive). -/
def Q.lt (a b : Q) : Prop := a.num * b.den < b.num * a.den

def Q.le (a b : Q) : Prop := a.num * b.den ≤ b.num * a.den

instance (a b : Q) : Decidable (a.lt b) := Int.decLt _ _

instance (a b : Q) : Decidable (a.le b) := Int.decLe _ _

/-- Numeric equality-with-zero test (Python `x != 0` on a float). -/
def Q.isZero (a : Q) : Bool := a.num == 0

/-- Floor of the represented value. -/
def Q.floorInt (a : Q) : Int := a.num.fdiv a.den

/-- Ceiling of the represented value. -/
def Q.ceilInt (a : Q) : Int := -((-a.num).fdiv a.den)

/-- The rational value a `Q` denotes. -/
def Q.toRat (a : Q) : ℚ := (a.num : ℚ) / (a.den : ℚ)

theorem Q.den_ne_zero_rat (a : Q) : (a.den : ℚ) ≠ 0 := by
  exact_mod_cast Int.ne_of_gt a.pos

theorem Q.toRat_ofInt (n : Int) : (Q.ofInt n).toRat = (n : ℚ) := by
  simp [Q.ofInt, Q.toRat]

theorem Q.toRat_zero : Q.zero.toRat = 0 := by
  simp [Q.zero, Q.toRat_ofInt]

theorem Q.toRat_qq (n d : Int) (h : 0 < d) : (qq n d).toRat = (n : ℚ) / (d : ℚ) := by
  simp [qq, h, Q.toRat]

theorem Q.toRat_add (a b : Q) : (a.add b).toRat = a.toRat + b.toRat := by
  unfold Q.add Q.toRat
  have ha := a.den_ne_zero_rat
  have hb := b.den_ne_zero_rat
  push_cast
  field_simp

theorem Q.toRat_neg (a : Q) : a.neg.toRat = -a.toRat := by
  unfold Q.neg Q.toRat
  push_cast
  ring

theorem Q.toRat_sub (a b : Q) : (a.sub b).toRat = a.toRat - b.toRat := by
  rw [Q.sub, Q.toRat_add, Q.toRat_neg]; ring

theorem Q.toRat_mul (a b : Q) : (a.mul b).toRat = a.toRat * b.toRat := by
  unfold Q.mul Q.toRat
  have ha := a.den_ne_zero_rat
  have hb := b.den_ne_zero_rat
  push_cast
  field_simp

theorem Q.toRat_div (a b : Q) : (a.div b).toRat = a.toRat / b.toRat := by
  unfold Q.div
  by_cases h : 0 < b.num
  · simp only [h, dif_pos]
    unfold Q.toRat
    have ha := a.den_ne_zero_rat
    have hb := b.den_ne_zero_rat
    have hn : (b.num : ℚ) ≠ 0 := by exact_mod_cast Int.ne_of_gt h
    push_cast
    field_simp
  · by_cases h2 : b.num < 0
    · simp only [h, dif_neg, not_false_iff, h2, dif_pos]
      unfold Q.toRat
      have ha := a.den_ne_zero_rat
      have hb := b.den_ne_zero_rat
      have hn : (b.num : ℚ) ≠ 0 := by exact_mod_cast Int.ne_of_lt h2
      push_cast
      field_simp
    · have hz : b.num = 0 := by omega
      simp only [h, dif_neg, not_false_iff, h2, dif_neg]
      simp [Q.zero, Q.ofInt, Q.toRat, hz]

theorem Q.lt_iff (a b : Q) : a.lt b ↔ a.toRat < b.toRat := by
  unfold Q.lt Q.toRat
  rw [div_lt_div_iff (by exact_mod_cast a.pos) (by exact_mod_cast b.pos)]
  constructor
  · intro h; exact_mod_cast h
  · intro h; exact_mod_cast h

theorem Q.le_iff (a b : Q) : a.le b ↔ a.toRat ≤ b.toRat := by
  unfold Q.le Q.toRat
  rw [div_le_div_iff (by exact_mod_cast a.pos) (by exact_mod_cast b.pos)]
  constructor
  · intro h; exact_mod_cast h
  · intro h; exact_mod_cast h

theorem Q.isZero_iff (a : Q) : a.isZero = true ↔ a.toRat = 0 := by
  unfold Q.isZero Q.toRat
  rw [div_eq_zero_iff]
  have := a.den_ne_zero_rat
  constructor
  · intro h; left; exact_mod_cast beq_iff_eq.mp h
  · intro h
    rcases h with h | h
    · exact beq_iff_eq.mpr (by exact_mod_cast h)
    · exact absurd h this

/-- Sum of a list (pandas `sum`, used by `mean`). -/
def sumQ (l : List Q) : Q := l.foldl Q.add Q.zero

/-- Insert into a value-sorted list. -/
def insQ (x : Q) : List Q → List Q
  | [] => [x]
  | y :: r => if x.le y then x :: y :: r else y :: insQ x r

/-- Value-sort a list (ascending), as `Series.quantile` does internally. -/
def qsort (l : List Q) : List Q := l.foldr insQ []

/-- Lookup in an association list with a default, modelling `dict.get(k, d)`. -/
def lookupD {α : Type} (l : List (String × α)) (k : String) (d : α) : α :=
  ((l.find? (fun p => p.1 == k)).map (fun p => p.2)).getD d

/-! ### Python string primitives used by the timestamp normalizer -/

/-- ASCII whitespace recognised by Python `str.strip()` inside `int()`. -/
def isWsChar (c : Char) : Bool :=
  c = ' ' || c = '\t' || c = '\n' || c = '\r' || c = '\x0b' || c = '\x0c'

/-- Strip leading and trailing whitespace. -/
def trimWs (l : List Char) : List Char :=
  ((l.dropWhile isWsChar).reverse.dropWhile isWsChar).reverse

def digitVal (c : Char) : Nat := c.toNat - 48

/-- Digits possibly separated by single underscores (Python integer literals
accepted by `int()`); the first digit has already been consumed into `acc`. -/
def digitsVal : List Char → Nat → Option Nat
  | [], acc => some acc
  | c :: r, acc =>
    if c = '_' then
      match r with
      | c2 :: r2 => if c2.isDigit then digitsVal r2 (acc * 10 + digitVal c2) else none
      | [] => none
    else if c.isDigit then digitsVal r (acc * 10 + digitVal c) else none

def pyParseNat (l : List Char) : Option Nat :=
  match l with
  | c :: r => if c.isDigit then digitsVal r (digitVal c) else none
  | [] => none

/-- Models Python `int(s)` on a string: optional surrounding whitespace, an
optional sign, then ASCII digits (with `_` separators). -/
def pyParseInt (l : List Char) : Option Int :=
  match trimWs l with
  | '+' :: r => (pyParseNat r).map (fun n => (n : Int))
  | '-' :: r => (pyParseNat r).map (fun n => -(n : Int))
  | r => (pyParseNat r).map (fun n => (n : Int))

/-- Models Python `s.split('/')`. -/
def splitSlash : List Char → List (List Char)
  | [] => [[]]
  | c :: r =>
    if c = '/' then [] :: splitSlash r
    else
      match splitSlash r with
      | f :: rest => (c :: f) :: rest
      | [] => [[c]]

/-- Models the `f"{n:02d}"` formatting of day and month. -/
def pad2 (n : Int) : List Char :=
  let s := (toString n).data
  if s.length < 2 then '0' :: s else s

/-- `thai_to_gregorian_year`: split on `/`; if the first three fields parse as
integers, rebuild `dd/mm/(year-543)`, otherwise (ValueError / IndexError)
return the input unchanged.  The `pd.isna` guard is not modelled because the
pipeline always feeds it strings (`astype(str)` happens first). -/
def thai_to_gregorian_year (s : String) : String :=
  match splitSlash s.data with
  | p0 :: p1 :: p2 :: _ =>
    match pyParseInt p0, pyParseInt p1, pyParseInt p2 with
    | some d, some m, some y =>
      String.mk (pad2 d ++ '/' :: (pad2 m ++ '/' :: (toString (y - 543)).data))
    | _, _, _ => s
  | _ => s

/-- A date string on which `thai_to_gregorian_year` takes its exception path:
fewer than three `/`-fields, or a non-integer among the first three. -/
def thaiMalformed (s : String) : Bool :=
  match splitSlash s.data with
  | p0 :: p1 :: p2 :: _ =>
    (pyParseInt p0).isNone || (pyParseInt p1).isNone || (pyParseInt p2).isNone
  | _ => true

/-! ### `pd.to_datetime(..., format='%d/%m/%Y %H:%M:%S', errors='coerce')`

The strptime regex for this format is
`\d{1,2} / \d{1,2} / \d{4} ' ' \d{1,2} : \d{1,2} : \d{1,2}` anchored on both
sides (value ranges are checked afterwards by the datetime constructor, out of
range giving NaT under `errors='coerce'`).  Because every literal separator is
a non-digit, the regex engine's backtracking is equivalent to greedy digit
runs, which is what `digitsThen` implements. -/

def digitsToNat (l : List Char) : Nat := l.foldl (fun a c => a * 10 + digitVal c) 0

/-- Match between `lo` and `hi` digits followed by the literal `c`; return the
value and the remainder after `c`. -/
def digitsThen (c : Char) (lo hi : Nat) (l : List Char) : Option (Nat × List Char) :=
  if lo ≤ (l.takeWhile Char.isDigit).length ∧ (l.takeWhile Char.isDigit).length ≤ hi then
    match l.dropWhile Char.isDigit with
    | c2 :: r2 => if c2 = c then some (digitsToNat (l.takeWhile Char.isDigit), r2) else none
    | [] => none
  else none

/-- Match between `lo` and `hi` digits ending the string. -/
def digitsEnd (lo hi : Nat) (l : List Char) : Option Nat :=
  if (lo ≤ (l.takeWhile Char.isDigit).length ∧ (l.takeWhile Char.isDigit).length ≤ hi) ∧
      l.dropWhile Char.isDigit = [] then
    some (digitsToNat (l.takeWhile Char.isDigit))
  else none

def isLeap (y : Nat) : Bool := (y % 4 == 0 && y % 100 != 0) || y % 400 == 0

def daysInMonth (m y : Nat) : Nat :=
  if m = 2 then (if isLeap y then 29 else 28)
  else if m = 4 ∨ m = 6 ∨ m = 9 ∨ m = 11 then 30 else 31

/-- Days since 1970-01-01 of a civil date (Gregorian, proleptic). -/
def daysFromCivil (y : Int) (m d : Nat) : Int :=
  let yy : Int := if m ≤ 2 then y - 1 else y
  let era : Int := yy.fdiv 400
  let yoe : Nat := (yy - era * 400).toNat
  let mp : Nat := if 2 < m then m - 3 else m + 9
  let doy : Nat := (153 * mp + 2) / 5 + d - 1
  let doe : Nat := yoe * 365 + yoe / 4 - yoe / 100 + doy
  era * 146097 + (doe : Int) - 719468

def epochSecs (y mo d h mi s : Nat) : Int :=
  daysFromCivil (y : Int) mo d * 86400 + ((h * 3600 + mi * 60 + s : Nat) : Int)

/-- `pd.Timestamp` nanosecond range (Int64, with the minimum reserved for
NaT); timestamps outside it coerce to NaT. -/
def inTsBounds (t : Int) : Bool :=
  -9223372036854775807 ≤ t * 1000000000 && t * 1000000000 ≤ 9223372036854775807

/-- Full model of the timestamp parse: structural match, then calendar and
range validation; `none` is NaT (the row is dropped). -/
def parseDMYHMS (l : List Char) : Option Int :=
  match digitsThen '/' 1 2 l with
  | none => none
  | some (dd, l1) =>
    match digitsThen '/' 1 2 l1 with
    | none => none
    | some (mo, l2) =>
      match digitsThen ' ' 4 4 l2 with
      | none => none
      | some (yy, l3) =>
        match digitsThen ':' 1 2 l3 with
        | none => none
        | some (hh, l4) =>
          match digitsThen ':' 1 2 l4 with
          | none => none
          | some (mi, l5) =>
            match digitsEnd 1 2 l5 with
            | none => none
            | some ss =>
              if (1 ≤ mo ∧ mo ≤ 12) ∧ (1 ≤ dd ∧ dd ≤ daysInMonth mo yy) ∧
                  hh ≤ 23 ∧ mi ≤ 59 ∧ ss ≤ 59 then
                let t := epochSecs yy mo dd hh mi ss
                if inTsBounds t then some t else none
              else none

/-- The combined parse of `date_str + ' ' + time_str` performed at
`analyzer.py:232`. -/
def parseTimestamp (date time : String) : Option Int :=
  parseDMYHMS (date.data ++ ' ' :: time.data)

/-! ### Cells and frames -/

/-- A raw spreadsheet cell: numeric, textual, or missing (NaN). -/
inductive Cell
  | num (q : Q)
  | str (s : String)
  | na
deriving DecidableEq

/-- Unsigned decimal literal (`12`, `12.5`, `.5`, `7.`). -/
def parseUQ (l : List Char) : Option Q :=
  let ip := l.takeWhile Char.isDigit
  let r := l.dropWhile Char.isDigit
  match r with
  | [] => if ip.isEmpty then none else some (Q.ofInt (digitsToNat ip))
  | '.' :: fr =>
    if fr.all Char.isDigit ∧ ¬(ip.isEmpty ∧ fr.isEmpty) then
      some (qq ((digitsToNat ip * 10 ^ fr.length + digitsToNat fr : Nat) : Int) ((10 : Int) ^ fr.length))
    else none
  | _ => none

/-- Decimal literal with optional sign and surrounding whitespace, the string
shapes `pd.to_numeric` accepts (scientific notation is not modelled; it never
occurs in these sheets). -/
def parseQLit (l : List Char) : Option Q :=
  match trimWs l with
  | '+' :: r => parseUQ r
  | '-' :: r => (parseUQ r).map Q.neg
  | r => parseUQ r

/-- `pd.to_numeric(cell, errors='coerce')`: `none` is NaN. -/
def Cell.toNum? : Cell → Option Q
  | Cell.num q => some q
  | Cell.str s => parseQLit s.data
  | Cell.na => none

/-- `astype(str)` on one cell.  NaN renders as `"nan"`; the rendering chosen
for numeric cells is a stand-in for Python float repr (no claim depends on a
numeric Date/Time cell, and any rendering fails the timestamp format). -/
def Cell.toStr : Cell → String
  | Cell.num q => toString q.num ++ "/" ++ toString q.den
  | Cell.str s => s
  | Cell.na => "nan"

/-- A pandas `DataFrame`: ordered named columns of cells. -/
structure Frame where
  cols : List (String × List Cell)
deriving DecidableEq

/-- `df.get(name)` / column presence. -/
def Frame.get? (f : Frame) (name : String) : Option (List Cell) :=
  ((f.cols.find? fun p => p.1 == name).map fun p => p.2)

/-- Number of rows (all columns of a real `DataFrame` have equal length). -/
def Frame.nrows (f : Frame) : Nat := (f.cols.map fun p => p.2.length).foldr max 0

/-- `to_numeric_safe`: coerce every cell, then `fillna(0)`. -/
def to_numeric_safe (l : List Cell) : List Q := l.map fun c => c.toNum?.getD Q.zero

/-- `nan_to_zero` (its argument here is `none` exactly when the pandas value
is NaN). -/
def nan_to_zero (v : Option Q) : Q := v.getD Q.zero

/-- `Series.mean()`: NaN (`none`) on an empty series. -/
def meanOpt (l : List Q) : Option Q :=
  if l.isEmpty then none else some ((sumQ l).div (Q.ofInt l.length))

/-- `Series.max()`: NaN (`none`) on an empty series. -/
def maxOpt (l : List Q) : Option Q :=
  match l with
  | [] => none
  | x :: r => some (r.foldl (fun a b => if a.le b then b else a) x)

/-- `get_last_value_safe`. -/
def get_last_value_safe (l : List Q) : Q := l.getLast?.getD Q.zero

/-- `Series.quantile(p)` with linear interpolation at position `p * (n-1)`
over the sorted values; only called on nonempty series. -/
def quantileQ (l : List Q) (p : Q) : Q :=
  let s := qsort l
  match s with
  | [] => Q.zero
  | _ :: _ =>
    let h := p.mul (Q.ofInt ((s.length : Int) - 1))
    let lo := h.floorInt
    let fr := h.sub (Q.ofInt lo)
    let a := s.getD lo.toNat Q.zero
    let b := s.getD h.ceilInt.toNat Q.zero
    a.add (fr.mul (b.sub a))

/-- `get_percentile_safe(series, percentile)`: 0.0 for an empty or all-NaN
series, otherwise `quantile(percentile/100)` over the non-NaN values. -/
def get_percentile_safe (l : List (Option Q)) (p : Q) : Q :=
  if l.isEmpty || l.all Option.isNone then Q.zero
  else quantileQ (l.filterMap id) (p.div (Q.ofInt 100))

/-- `get_percentile_safe` on a NaN-free series (everything after
`to_numeric_safe` has been `fillna(0)`ed). -/
def pctQ (l : List Q) (p : Q) : Q := get_percentile_safe (l.map some) p

/-! ### Timestamp normalisation of the Trend sheet (`analyzer.py:229-235`) -/

/-- Per-row timestamp parse results.  When either split field is absent the
pandas string addition produces all-NaN, so every row drops. -/
def rawTimes (f : Frame) : List (Option Int) :=
  match f.get? "Date", f.get? "Time" with
  | some dc, some tc =>
    (List.range f.nrows).map fun i =>
      parseTimestamp (thai_to_gregorian_year ((dc.getD i Cell.na).toStr)) ((tc.getD i Cell.na).toStr)
  | _, _ => List.replicate f.nrows none

/-- Keep the first row of each duplicated timestamp
(`index.duplicated(keep='first')`). -/
def dedupFirst : List (Nat × Int) → List Int → List (Nat × Int)
  | [], _ => []
  | (i, t) :: r, seen =>
    if seen.contains t then dedupFirst r seen else (i, t) :: dedupFirst r (t :: seen)

/-- Surviving `(row index, timestamp)` pairs after `dropna` and
deduplication. -/
def keptRows (f : Frame) : List (Nat × Int) :=
  dedupFirst ((rawTimes f).enum.filterMap fun p => p.2.map fun t => (p.1, t)) []

/-- `clean_df.get(name)`: the named column restricted to surviving rows, or
`none` when the column is absent. -/
def cleanCol? (f : Frame) (name : String) : Option (List Cell) :=
  (f.get? name).map fun c => (keptRows f).map fun p => c.getD p.1 Cell.na

/-- `clean_df.get(name, pd.Series([]))`. -/
def cleanColD (f : Frame) (name : String) : List Cell := (cleanCol? f name).getD []

/-- A cleaned numeric column with its timestamps (for resampling). -/
def cleanNumCol (f : Frame) (name : String) : List (Int × Q) :=
  match f.get? name with
  | some c => (keptRows f).map fun p => (p.2, ((c.getD p.1 Cell.na).toNum?).getD Q.zero)
  | none => []

/-! ### Percentile aggregation -/

def insKey (x : Int) : List Int → List Int
  | [] => [x]
  | y :: r => if x < y then x :: y :: r else if x = y then y :: r else y :: insKey x r

/-- Ascending duplicate-free bucket keys. -/
def sortedKeys (l : List Int) : List Int := l.foldr insKey []

/-- 10-minute bucket of an epoch-second timestamp (bucket boundaries are the
same whether anchored at the epoch or at midnight, since 600 divides 86400). -/
def bucketOf (t : Int) : Int := t.fdiv 600

/-- `series.resample('10min').apply(lambda x: get_percentile_safe(x, 95) if
not x.empty else np.nan).dropna()`: the within-bucket 95th percentiles of the
nonempty buckets, in ascending bucket order. -/
def resample10 (l : List (Int × Q)) : List Q :=
  (sortedKeys (l.map fun p => bucketOf p.1)).map fun k =>
    pctQ ((l.filter fun p => bucketOf p.1 == k).map fun p => p.2) (Q.ofInt 95)

/-- The dictionary entries `calculate_thd_percentiles` adds for one column
(the 99th/3s entry first, then, when the resampled series is nonempty, the
two 10-minute entries, as at `analyzer.py:98-107`). -/
def colBlock (f : Frame) (col : String) : List (String × Q) :=
  match f.get? col with
  | none => []
  | some _ =>
    if (cleanNumCol f col).isEmpty then []
    else if (resample10 (cleanNumCol f col)).isEmpty then
      [(col ++ "_99th_3s", pctQ ((cleanNumCol f col).map fun p => p.2) (Q.ofInt 99))]
    else
      [(col ++ "_99th_3s", pctQ ((cleanNumCol f col).map fun p => p.2) (Q.ofInt 99)),
       (col ++ "_95th_10min", pctQ (resample10 (cleanNumCol f col)) (Q.ofInt 95)),
       (col ++ "_99th_10min", pctQ (resample10 (cleanNumCol f col)) (Q.ofInt 99))]

/-- `calculate_thd_percentiles(clean_df, thd_type)` (both percentile flags are
left at their `True` defaults at every call site). -/
def calculate_thd_percentiles (f : Frame) (thd_type : String) : List (String × Q) :=
  colBlock f (thd_type ++ "1 THD") ++ colBlock f (thd_type ++ "2 THD") ++
    colBlock f (thd_type ++ "3 THD")

def harmCol (pfx : String) (p h : Nat) : String := pfx ++ toString p ++ "h" ++ toString h

/-- `calculate_individual_harmonic_percentiles(df, prefix, 95)`: a single
stage 95th percentile per present `{prefix}{phase}h{order}` column of the raw
harmonic sheet. -/
def calculate_individual_harmonic_percentiles (f : Frame) (pfx : String) : List (String × Q) :=
  (List.range' 2 49).flatMap fun h =>
    [1, 2, 3].filterMap fun p =>
      match f.get? (harmCol pfx p h) with
      | none => none
      | some c =>
        if c.isEmpty then none
        else some (harmCol pfx p h ++ "_95th", pctQ (to_numeric_safe c) (Q.ofInt 95))

/-! ### IEEE 519 limit tables (`analyzer.py:18-31`) -/

structure VRow where
  individual : Q
  thd : Q
deriving DecidableEq

def VOLTAGE_LIMITS_le1kV : VRow := ⟨Q.ofInt 5, Q.ofInt 8⟩

def VOLTAGE_LIMITS_1to69 : VRow := ⟨Q.ofInt 3, Q.ofInt 5⟩

def VOLTAGE_LIMITS_69to161 : VRow := ⟨qq 3 2, qq 5 2⟩

def VOLTAGE_LIMITS_gt161 : VRow := ⟨Q.ofInt 1, qq 3 2⟩

/-- The nominal-voltage if-chain of `analyzer.py:281-284` (the fallback row is
`V_gt_161kV`; the selected dict is always truthy, so the voltage checks always
run). -/
def v_limit_for (nominal : Q) : VRow :=
  if nominal.le (Q.ofInt 1000) then VOLTAGE_LIMITS_le1kV
  else if nominal.le (Q.ofInt 69000) then VOLTAGE_LIMITS_1to69
  else if nominal.le (Q.ofInt 161000) then VOLTAGE_LIMITS_69to161
  else VOLTAGE_LIMITS_gt161

structure CRow where
  h_lt_11 : Q
  h_11_17 : Q
  h_17_23 : Q
  h_23_35 : Q
  h_gt_35 : Q
  tdd : Q
deriving DecidableEq

/-- Row for ratio band `(0, 20)`. -/
def cRowA : CRow := ⟨Q.ofInt 4, Q.ofInt 2, qq 3 2, qq 6 10, qq 3 10, Q.ofInt 5⟩

/-- Row for ratio band `(20, 50)`. -/
def cRowB : CRow := ⟨Q.ofInt 7, qq 7 2, qq 5 2, Q.ofInt 1, qq 5 10, Q.ofInt 8⟩

/-- Row for ratio band `(50, 100)`. -/
def cRowC : CRow := ⟨Q.ofInt 10, qq 9 2, Q.ofInt 4, qq 3 2, qq 7 10, Q.ofInt 12⟩

/-- Row for ratio band `(100, 1000)`. -/
def cRowD : CRow := ⟨Q.ofInt 12, qq 11 2, Q.ofInt 5, Q.ofInt 2, Q.ofInt 1, Q.ofInt 15⟩

/-- Row for ratio band `(1000, inf)`. -/
def cRowE : CRow := ⟨Q.ofInt 15, Q.ofInt 7, Q.ofInt 6, qq 5 2, qq 14 10, Q.ofInt 20⟩

/-- `CURRENT_LIMITS_120V_to_69kV`, in dict insertion order; the unbounded top
band (`float('inf')`) is `none`. -/
def CURRENT_LIMITS_120V_to_69kV : List ((Q × Option Q) × CRow) :=
  [((Q.ofInt 0, some (Q.ofInt 20)), cRowA),
   ((Q.ofInt 20, some (Q.ofInt 50)), cRowB),
   ((Q.ofInt 50, some (Q.ofInt 100)), cRowC),
   ((Q.ofInt 100, some (Q.ofInt 1000)), cRowD),
   ((Q.ofInt 1000, none), cRowE)]

/-- `isc / il if il > 0 else 0` (`analyzer.py:323`). -/
def iscIlRat (isc il : Q) : Q := if Q.zero.lt il then isc.div il else Q.zero

/-- `min_r <= ratio < max_r` for one band. -/
def bandContains (b : Q × Option Q) (r : Q) : Bool :=
  decide (b.1.le r) && (match b.2 with | some hi => decide (r.lt hi) | none => true)

/-- First (and, the bands being disjoint, only) matching row of the loop at
`analyzer.py:326-329`. -/
def selectCRow (r : Q) : Option CRow :=
  (CURRENT_LIMITS_120V_to_69kV.find? fun e => bandContains e.1 r).map fun e => e.2

/-- `c_limit_row`: `None` above 69 kV, else the matching ratio band (possibly
`None` for a ratio outside every band, e.g. negative). -/
def c_limit_row_for (nominal isc il : Q) : Option CRow :=
  if nominal.le (Q.ofInt 69000) then selectCRow (iscIlRat isc il) else none

/-- `get_current_limit_for_harmonic` (the `limit_row.get(_, inf)` defaults
never fire: every key is present in every row). -/
def get_current_limit_for_harmonic (order : Nat) (r : CRow) : Q :=
  if order < 11 then r.h_lt_11
  else if order < 17 then r.h_11_17
  else if order < 23 then r.h_17_23
  else if order < 35 then r.h_23_35
  else r.h_gt_35

/-! ### Failing points (`add_failing_point`, `analyzer.py:286-295`) -/

structure FPEntry where
  phases : List String
  harmonics : List String
deriving DecidableEq

def FPEntry.empty : FPEntry := ⟨[], []⟩

/-- Insertion-ordered dict update: apply `g` to the value at `k`, first
inserting `d` at the end if `k` is absent. -/
def updAssoc {α : Type} : List (String × α) → String → α → (α → α) → List (String × α)
  | [], k, d, g => [(k, g d)]
  | (k2, v) :: r, k, d, g =>
    if k2 = k then (k2, g v) :: r else (k2, v) :: updAssoc r k d g

/-- `if x and x not in xs: xs.append(x)` (an empty string is falsy). -/
def addIfNew (e : List String) (x : String) : List String :=
  if x ≠ "" ∧ ¬ e.contains x then e ++ [x] else e

def FPEntry.addP (e : FPEntry) (ph hm : Option String) : FPEntry :=
  let e1 := match ph with
    | some p => { e with phases := addIfNew e.phases p }
    | none => e
  match hm with
  | some h => { e1 with harmonics := addIfNew e1.harmonics h }
  | none => e1

/-- `failing_points`: category → description → grouped entry, insertion
ordered at both levels. -/
abbrev FPs := List (String × List (String × FPEntry))

def add_failing_point (fps : FPs) (category description : String) (ph hm : Option String) : FPs :=
  updAssoc fps category [] fun descs =>
    updAssoc descs description FPEntry.empty fun e => e.addP ph hm

/-- Nested lookup into the failing-point collection. -/
def fpCat (fps : FPs) (category : String) : Option (List (String × FPEntry)) :=
  ((fps.find? fun p => p.1 == category).map fun p => p.2)

/-! ### TDD (`analyzer.py:271-277`) -/

/-- The real-valued TDD exactly as computed (guarded; `np.sqrt` places the
value in `ℝ`).  The inner `if il > 0 else 0.0` of line 277 is kept although
the guard already implies it. -/
noncomputable def tddR (thdi avg il : ℚ) : ℝ :=
  if 0 < thdi ∧ 0 < avg ∧ 0 < il then
    if 0 < il then
      (((avg : ℝ) / Real.sqrt (1 + ((thdi : ℝ) / 100) ^ 2)) * ((thdi : ℝ) / 100)) /
        (il : ℝ) * 100
    else 0
  else 0

/-- Kernel-computable decision of `tdd > L` for a nonnegative limit `L`
(obtained by squaring away the square root); proved equivalent to the real
comparison in `tddExceeds_iff`. -/
def tddExceeds (thdi avg il L : Q) : Bool :=
  if Q.zero.lt thdi ∧ Q.zero.lt avg ∧ Q.zero.lt il then
    let f := thdi.div (Q.ofInt 100)
    let lhs := ((avg.mul f).mul (Q.ofInt 100)).div il
    decide (((L.mul L).mul ((Q.ofInt 1).add (f.mul f))).lt (lhs.mul lhs))
  else decide (L.lt Q.zero)

/-! ### Compliance evaluation (`analyzer.py:279-363`) -/

structure CompState where
  vc : String
  cc : String
  fps : FPs
deriving DecidableEq

def vThdViol1 (L : VRow) (vtp : List (String × Q)) (p : Nat) : Bool :=
  decide ((L.thd.mul (qq 3 2)).lt (lookupD vtp ("U" ++ toString p ++ " THD_99th_3s") Q.zero))

def vThdViol2 (L : VRow) (vtp : List (String × Q)) (p : Nat) : Bool :=
  decide (L.thd.lt (lookupD vtp ("U" ++ toString p ++ " THD_95th_10min") Q.zero))

/-- The two per-phase voltage-THD checks (`analyzer.py:297-308`). -/
def vThdStep (L : VRow) (vtp : List (String × Q)) (p : Nat) (st : CompState) : CompState :=
  let st1 :=
    if vThdViol1 L vtp p then
      { st with
        vc := "Fail"
        fps := add_failing_point st.fps "Voltage THD" "99th Percentile (3s) > 1.5x limit"
          (some ("U" ++ toString p)) none }
    else st
  if vThdViol2 L vtp p then
    { st1 with
      vc := "Fail"
      fps := add_failing_point st1.fps "Voltage THD" "95th Percentile (10min) > limit"
        (some ("U" ++ toString p)) none }
  else st1

def vHarmFailedPhases (L : VRow) (vhp : List (String × Q)) (h : Nat) : List Nat :=
  [1, 2, 3].filter fun p =>
    decide (L.individual.lt (lookupD vhp (harmCol "V" p h ++ "_95th") Q.zero))

/-- One individual-voltage-harmonic order (`analyzer.py:311-319`): the verdict
flips if any phase violates, and the violating phases are joined into a single
comma-separated `phase` string (the `harmonic` argument is never supplied). -/
def vHarmStep (L : VRow) (vhp : List (String × Q)) (h : Nat) (st : CompState) : CompState :=
  let failed := vHarmFailedPhases L vhp h
  if failed.isEmpty then st
  else
    { st with
      vc := "Fail"
      fps := add_failing_point st.fps "Individual Voltage Harmonics"
        ("Harmonic " ++ toString h ++ " > limit")
        (some (String.intercalate ", " (failed.map fun p => "V" ++ toString p))) none }

/-- The voltage side: per-phase THD checks, then orders 2..50 (the selected
voltage-limit dict is always truthy). -/
def voltageBlock (L : VRow) (vtp vhp : List (String × Q)) (st : CompState) : CompState :=
  let st1 := [1, 2, 3].foldl (fun s p => vThdStep L vtp p s) st
  (List.range' 2 49).foldl (fun s h => vHarmStep L vhp h s) st1

/-- The overall-TDD check (`analyzer.py:332-334`). -/
def cTddStep (hit : Bool) (st : CompState) : CompState :=
  if hit then
    { st with
      cc := "Fail"
      fps := add_failing_point st.fps "Current TDD" "Overall TDD > limit" none none }
  else st

def cThdViol1 (R : CRow) (ctp : List (String × Q)) (p : Nat) : Bool :=
  decide ((R.tdd.mul (Q.ofInt 2)).lt (lookupD ctp ("A" ++ toString p ++ " THD_99th_3s") Q.zero))

def cThdViol2 (R : CRow) (ctp : List (String × Q)) (p : Nat) : Bool :=
  decide (R.tdd.lt (lookupD ctp ("A" ++ toString p ++ " THD_95th_10min") Q.zero))

def cThdViol3 (R : CRow) (ctp : List (String × Q)) (p : Nat) : Bool :=
  decide ((R.tdd.mul (qq 3 2)).lt (lookupD ctp ("A" ++ toString p ++ " THD_99th_10min") Q.zero))

/-- The three per-phase current-THD severity tiers (`analyzer.py:336-351`);
the first description string really says `1.5x` while the compared factor is
2, exactly as in the source. -/
def cThdStep (R : CRow) (ctp : List (String × Q)) (p : Nat) (st : CompState) : CompState :=
  let st1 :=
    if cThdViol1 R ctp p then
      { st with
        cc := "Fail"
        fps := add_failing_point st.fps "Current THD" "99th Percentile (3s) > 1.5x TDD limit"
          (some ("A" ++ toString p)) none }
    else st
  let st2 :=
    if cThdViol2 R ctp p then
      { st1 with
        cc := "Fail"
        fps := add_failing_point st1.fps "Current THD" "95th Percentile (10min) > TDD limit"
          (some ("A" ++ toString p)) none }
    else st1
  if cThdViol3 R ctp p then
    { st2 with
      cc := "Fail"
      fps := add_failing_point st2.fps "Current THD" "99th Percentile (10min) > 1.5x TDD limit"
        (some ("A" ++ toString p)) none }
  else st2

def cHarmFailedPhases (R : CRow) (ahp : List (String × Q)) (h : Nat) : List Nat :=
  [1, 2, 3].filter fun p =>
    decide ((get_current_limit_for_harmonic h R).lt (lookupD ahp (harmCol "A" p h ++ "_95th") Q.zero))

/-- One individual-current-harmonic order (`analyzer.py:354-363`). -/
def cHarmStep (R : CRow) (ahp : List (String × Q)) (h : Nat) (st : CompState) : CompState :=
  let failed := cHarmFailedPhases R ahp h
  if failed.isEmpty then st
  else
    { st with
      cc := "Fail"
      fps := add_failing_point st.fps "Individual Current Harmonics"
        ("Harmonic " ++ toString h ++ " > limit")
        (some (String.intercalate ", " (failed.map fun p => "A" ++ toString p))) none }

/-- The current side (`analyzer.py:331-363`): skipped entirely when no limit
row was selected. -/
def currentBlock (rowOpt : Option CRow) (thdi avg il : Q) (ctp ahp : List (String × Q))
    (st : CompState) : CompState :=
  match rowOpt with
  | none => st
  | some R =>
    let st1 := cTddStep (tddExceeds thdi avg il R.tdd) st
    let st2 := [1, 2, 3].foldl (fun s p => cThdStep R ctp p s) st1
    (List.range' 2 49).foldl (fun s h => cHarmStep R ahp h s) st2

/-! ### Summary statistics and report assembly -/

def colMean (f : Frame) (name : String) : Q :=
  nan_to_zero (meanOpt (to_numeric_safe (cleanColD f name)))

def colMax (f : Frame) (name : String) : Q :=
  nan_to_zero (maxOpt (to_numeric_safe (cleanColD f name)))

def colLast (f : Frame) (name : String) : Q :=
  nan_to_zero (some (get_last_value_safe (to_numeric_safe (cleanColD f name))))

/-- `thdv_overall` (`analyzer.py:240`). -/
def thdvOf (f : Frame) : Q :=
  lookupD (calculate_thd_percentiles f "U") "U1 THD_95th_10min" Q.zero

/-- `thdi_overall` (`analyzer.py:241`), also `thdi_for_tdd` (line 272). -/
def thdiOf (f : Frame) : Q :=
  lookupD (calculate_thd_percentiles f "A") "A1 THD_95th_10min" Q.zero

/-- `clean_df.get(name, pd.Series([0]))` coerced (`analyzer.py:266-267`). -/
def colOrZeroRow (f : Frame) (name : String) : List Q :=
  match cleanCol? f name with
  | some c => to_numeric_safe c
  | none => [Q.zero]

/-- `power_factor_avg` (`analyzer.py:266-269`): elementwise `W/VA` with zero
denominators masked to NaN, then a NaN-skipping mean (all-NaN mean is NaN,
mapped to 0). -/
def power_factor_avg_of (f : Frame) : Q :=
  let active := colOrZeroRow f "W Total"
  let apparent := colOrZeroRow f "VA Total"
  let ratios := (active.zip apparent).filterMap fun p =>
    if p.2.isZero then none else some (p.1.div p.2)
  nan_to_zero (meanOpt ratios)

structure SummaryStats where
  u1_rms_avg : Q
  u2_rms_avg : Q
  u3_rms_avg : Q
  v1_rms_avg : Q
  v2_rms_avg : Q
  v3_rms_avg : Q
  a1_rms_avg : Q
  a2_rms_avg : Q
  a3_rms_avg : Q
  a1_rms_max : Q
  a2_rms_max : Q
  a3_rms_max : Q
  active_power_avg : Q
  reactive_power_avg : Q
  apparent_power_avg : Q
  active_energy_total : Q
  reactive_energy_total : Q
  apparent_energy_total : Q
  thdv_percent_avg : Q
  thdi_percent_avg : Q
  power_factor_avg : Q
deriving DecidableEq

/-- `summary_stats` (`analyzer.py:243-269`). -/
def summaryOf (f : Frame) : SummaryStats :=
  { u1_rms_avg := colMean f "U1 RMS"
    u2_rms_avg := colMean f "U2 RMS"
    u3_rms_avg := colMean f "U3 RMS"
    v1_rms_avg := colMean f "V1 RMS"
    v2_rms_avg := colMean f "V2 RMS"
    v3_rms_avg := colMean f "V3 RMS"
    a1_rms_avg := colMean f "A1 RMS"
    a2_rms_avg := colMean f "A2 RMS"
    a3_rms_avg := colMean f "A3 RMS"
    a1_rms_max := colMax f "A1 RMS"
    a2_rms_max := colMax f "A2 RMS"
    a3_rms_max := colMax f "A3 RMS"
    active_power_avg := colMean f "W Total"
    reactive_power_avg := colMean f "var Total"
    apparent_power_avg := colMean f "VA Total"
    active_energy_total := colLast f "Wh Total"
    reactive_energy_total := colLast f "varh Total"
    apparent_energy_total := colLast f "VAh Total"
    thdv_percent_avg := nan_to_zero (some (thdvOf f))
    thdi_percent_avg := nan_to_zero (some (thdiOf f))
    power_factor_avg := power_factor_avg_of f }

/-- The report's `tdd_percent` value (real-valued because of `np.sqrt`). -/
noncomputable def analyzeTdd (f : Frame) (il : Q) : ℝ :=
  tddR (thdiOf f).toRat (colMean f "A1 RMS").toRat il.toRat

/-- The full compliance pass: verdicts start `"Pass"`, the voltage block runs
unconditionally, then the current block. -/
def complianceOf (tr vh ah : Frame) (nominal isc il : Q) : CompState :=
  let vtp := calculate_thd_percentiles tr "U"
  let ctp := calculate_thd_percentiles tr "A"
  let vhp := calculate_individual_harmonic_percentiles vh "V"
  let ahp := calculate_individual_harmonic_percentiles ah "A"
  let st1 := voltageBlock (v_limit_for nominal) vtp vhp ⟨"Pass", "Pass", []⟩
  currentBlock (c_limit_row_for nominal isc il) (thdiOf tr) (colMean tr "A1 RMS") il ctp ahp st1

def msgVoltage : String :=
  "Investigate voltage sources for harmonic distortion. Consider passive or active harmonic filters."

def msgCurrent : String :=
  "Identify non-linear loads causing current distortion. Consider installing harmonic filters."

def msgPF : String :=
  "Improve power factor by installing capacitor banks or using active power factor correction (PFC)."

def msgHealthy : String :=
  "System power quality appears to be in good condition. Continuous monitoring is recommended."

/-- `generate_recommendations` (`analyzer.py:154-175`); `power_factor_avg` is
always present in the summary, so the `1.0` default is never used. -/
def generate_recommendations (vc cc : String) (pf : Q) : List String :=
  let r := (if vc == "Fail" then [msgVoltage] else []) ++
           (if cc == "Fail" then [msgCurrent] else []) ++
           (if pf.lt (qq 95 100) then [msgPF] else [])
  if r.isEmpty then [msgHealthy] else r

/-- Per-order bar value: `np.mean` of the three per-phase percentiles (the
lookups default to 0, so the list always has three entries and is never
NaN). -/
def barData (ihp : List (String × Q)) (pfx : String) : List Q :=
  (List.range' 2 49).map fun h =>
    nan_to_zero (some ((sumQ ([1, 2, 3].map fun p =>
      lookupD ihp (harmCol pfx p h ++ "_95th") Q.zero)).div (Q.ofInt 3)))

def trendChannels : List String :=
  ["U1 RMS", "U2 RMS", "U3 RMS", "V1 RMS", "V2 RMS", "V3 RMS",
   "A1 RMS", "A2 RMS", "A3 RMS", "W Total", "var Total", "VA Total",
   "Wh Total", "varh Total", "VAh Total", "U1 THD", "U2 THD", "U3 THD",
   "A1 THD", "A2 THD", "A3 THD", "PF1", "PF2", "PF3", "PF Mean", "Vunb", "Aunb"]

def attrErrMsg : String := "AttributeError: 'float' object has no attribute 'fillna'"

/-- `series_to_json_list` (`analyzer.py:382-383`).  `clean_df.get(col_name)`
has no default: on a missing column it returns `None`, `pd.to_numeric(None,
errors='coerce')` gives the float NaN, and `.fillna` on a float raises
`AttributeError` - modelled as the error case. -/
def series_to_json_list (f : Frame) (name : String) : Except String (List Q) :=
  match cleanCol? f name with
  | some c => Except.ok (to_numeric_safe c)
  | none => Except.error attrErrMsg

structure TrendData where
  timestamps : List Int
  series : List (String × List Q)
deriving DecidableEq

/-- The `trend_data` dict (`analyzer.py:385-428`), channel groups flattened
in source order; timestamps are kept as epoch seconds rather than re-rendered
strings.  The first missing channel aborts with the `AttributeError`. -/
def buildTrendData (f : Frame) : Except String TrendData :=
  (trendChannels.foldl
    (fun acc name =>
      match acc with
      | Except.error e => Except.error e
      | Except.ok l =>
        match series_to_json_list f name with
        | Except.ok v => Except.ok (l ++ [(name, v)])
        | Except.error e => Except.error e)
    (Except.ok [])).map fun s => ⟨(keptRows f).map fun p => p.2, s⟩

/-- The analysis report (`analysis_results`); `tdd_percent` is real-valued
(`analyzeTdd`) and therefore kept beside, not inside, this computable
structure. -/
structure Report where
  thdv_percent : Q
  summary_stats : SummaryStats
  voltage_compliance : String
  current_compliance : String
  failing_points : FPs
  bar_labels : List Nat
  vh_data : List Q
  ah_data : List Q
  trend_data : TrendData
  recommendations : List String
deriving DecidableEq

/-- `analyze_full_data(dfs, nominal_voltage, isc, il)`. -/
def analyze_full_data (dfs : List (String × Frame)) (nominal isc il : Q) : Except String Report :=
  match ((dfs.find? fun p => p.1 == "Trend").map fun p => p.2),
        ((dfs.find? fun p => p.1 == "Vh Harmonic %").map fun p => p.2),
        ((dfs.find? fun p => p.1 == "Ah Harmonic %").map fun p => p.2) with
  | some tr, some vh, some ah =>
    match buildTrendData tr with
    | Except.error e => Except.error e
    | Except.ok td =>
      let st := complianceOf tr vh ah nominal isc il
      let ss := summaryOf tr
      Except.ok
        { thdv_percent := nan_to_zero (some (thdvOf tr))
          summary_stats := ss
          voltage_compliance := st.vc
          current_compliance := st.cc
          failing_points := st.fps
          bar_labels := List.range' 2 49
          vh_data := barData (calculate_individual_harmonic_percentiles vh "V") "V"
          ah_data := barData (calculate_individual_harmonic_percentiles ah "A") "A"
          trend_data := td
          recommendations := generate_recommendations st.vc st.cc ss.power_factor_avg }
  | _, _, _ => Except.error "Missing required worksheets."

/-! ### Result accessors (convenient decidable views of an `Except` run) -/

def getVC : Except String Report → Option String
  | Except.ok r => some r.voltage_compliance
  | Except.error _ => none

def getCC : Except String Report → Option String
  | Except.ok r => some r.current_compliance
  | Except.error _ => none

def getFPs : Except String Report → Option FPs
  | Except.ok r => some r.failing_points
  | Except.error _ => none

def getRecs : Except String Report → Option (List String)
  | Except.ok r => some r.recommendations
  | Except.error _ => none

def getErr : Except String Report → Option String
  | Except.ok _ => none
  | Except.error e => some e

/-! ### Concrete inputs used by the claim theorems -/

def qcell (n : Int) : Cell := Cell.num (Q.ofInt n)

def emptyFrame : Frame := ⟨[]⟩

def dateCol : List Cell := [Cell.str "01/01/2543", Cell.str "01/01/2543"]

def timeCol : List Cell := [Cell.str "10:00:00", Cell.str "10:00:05"]

/-- Two zero samples. -/
def zz : List Cell := [qcell 0, qcell 0]

/-- The spec's end-to-end trend table exactly as described: constant
U1 RMS = 230 and 0% THD on every phase (and nothing else). -/
def c2TrendMin : Frame :=
  ⟨[("Date", dateCol), ("Time", timeCol),
    ("U1 RMS", [qcell 230, qcell 230]),
    ("U1 THD", zz), ("U2 THD", zz), ("U3 THD", zz),
    ("A1 THD", zz), ("A2 THD", zz), ("A3 THD", zz)]⟩

/-- The same scenario completed with every channel the report assembler
touches (all zero). -/
def c2TrendFull : Frame :=
  ⟨[("Date", dateCol), ("Time", timeCol),
    ("U1 RMS", [qcell 230, qcell 230]), ("U2 RMS", zz), ("U3 RMS", zz),
    ("V1 RMS", zz), ("V2 RMS", zz), ("V3 RMS", zz),
    ("A1 RMS", zz), ("A2 RMS", zz), ("A3 RMS", zz),
    ("W Total", zz), ("var Total", zz), ("VA Total", zz),
    ("Wh Total", zz), ("varh Total", zz), ("VAh Total", zz),
    ("U1 THD", zz), ("U2 THD", zz), ("U3 THD", zz),
    ("A1 THD", zz), ("A2 THD", zz), ("A3 THD", zz),
    ("PF1", zz), ("PF2", zz), ("PF3", zz), ("PF Mean", zz),
    ("Vunb", zz), ("Aunb", zz)]⟩

/-- As `c2TrendFull` but with equal positive power readings, so the average
power factor is 1. -/
def c2TrendFullPF : Frame :=
  ⟨[("Date", dateCol), ("Time", timeCol),
    ("U1 RMS", [qcell 230, qcell 230]), ("U2 RMS", zz), ("U3 RMS", zz),
    ("V1 RMS", zz), ("V2 RMS", zz), ("V3 RMS", zz),
    ("A1 RMS", zz), ("A2 RMS", zz), ("A3 RMS", zz),
    ("W Total", [qcell 230, qcell 230]), ("var Total", zz),
    ("VA Total", [qcell 230, qcell 230]),
    ("Wh Total", zz), ("varh Total", zz), ("VAh Total", zz),
    ("U1 THD", zz), ("U2 THD", zz), ("U3 THD", zz),
    ("A1 THD", zz), ("A2 THD", zz), ("A3 THD", zz),
    ("PF1", zz), ("PF2", zz), ("PF3", zz), ("PF Mean", zz),
    ("Vunb", zz), ("Aunb", zz)]⟩

/-- A voltage-harmonic sheet on which orders 2 and 3 of phase 1 exceed the
5% individual limit of the sub-1kV class. -/
def vhTwoOrders : Frame := ⟨[("V1h2", [qcell 10]), ("V1h3", [qcell 10])]⟩

def sheetsOf (tr vh ah : Frame) : List (String × Frame) :=
  [("Trend", tr), ("Vh Harmonic %", vh), ("Ah Harmonic %", ah)]

/-! ### Derived predicates used by the claim statements -/

/-- Some voltage rule fires (used to characterise the verdict). -/
def vAnyViol (L : VRow) (vtp vhp : List (String × Q)) : Bool :=
  ([1, 2, 3].any fun p => vThdViol1 L vtp p || vThdViol2 L vtp p) ||
  ((List.range' 2 49).any fun h => !(vHarmFailedPhases L vhp h).isEmpty)

/-- Some current rule fires for the selected row. -/
def cAnyViol (R : CRow) (thdi avg il : Q) (ctp ahp : List (String × Q)) : Bool :=
  tddExceeds thdi avg il R.tdd ||
  ([1, 2, 3].any fun p => cThdViol1 R ctp p || cThdViol2 R ctp p || cThdViol3 R ctp p) ||
  ((List.range' 2 49).any fun h => !(cHarmFailedPhases R ahp h).isEmpty)

/-- Every phase list and harmonic list in the collection is duplicate free
(the "sets" of the FailingPoint data model). -/
def FPsNodup (fps : FPs) : Prop :=
  ∀ ce ∈ fps, ∀ de ∈ ce.2, de.2.phases.Nodup ∧ de.2.harmonics.Nodup

/-- Modelled from the spec (§4.4): the row whose half-open ratio band
`[low, high)` contains the ratio, boundaries mapping to the higher band and
the top band unbounded.  Used as the specification against which the source's
first-match loop is compared. -/
def specCurrentRow (r : Q) : CRow :=
  if r.lt (Q.ofInt 20) then cRowA
  else if r.lt (Q.ofInt 50) then cRowB
  else if r.lt (Q.ofInt 100) then cRowC
  else if r.lt (Q.ofInt 1000) then cRowD
  else cRowE

/-! ### Dictionary and accumulator lemmas -/

theorem find?_updAssoc_ne {α : Type} (l : List (String × α)) (k : String) (d : α) (g : α → α)
    (cat : String) (h : cat ≠ k) :
    (updAssoc l k d g).find? (fun p => p.1 == cat) = l.find? (fun p => p.1 == cat) := by
  have hkc : (k == cat) = false := by
    simp only [beq_eq_false_iff_ne]
    exact fun e => h e.symm
  induction l with
  | nil => simp [updAssoc, List.find?, hkc]
  | cons a t ih =>
    obtain ⟨k2, v⟩ := a
    simp only [updAssoc]
    by_cases hk : k2 = k
    · subst hk
      simp [List.find?, hkc]
    · simp only [hk, if_false, List.find?]
      cases hc : (k2 == cat) <;> simp [hc, ih]

/-- Inserting a failing point for one category leaves every other category
untouched. -/
theorem fpCat_add_ne (fps : FPs) (c d : String) (ph hm : Option String) (cat : String)
    (h : cat ≠ c) :
    fpCat (add_failing_point fps c d ph hm) cat = fpCat fps cat := by
  unfold fpCat add_failing_point
  rw [find?_updAssoc_ne _ _ _ _ _ h]

theorem updAssoc_forall_vals {α : Type} (P : α → Prop) (l : List (String × α)) (k : String)
    (d : α) (g : α → α) (hd : P (g d)) (hg : ∀ v, P v → P (g v)) :
    ∀ hl : ∀ x ∈ l, P x.2, ∀ x ∈ updAssoc l k d g, P x.2 := by
  induction l with
  | nil =>
    intro _ x hx
    simp only [updAssoc, List.mem_singleton] at hx
    subst hx
    exact hd
  | cons a t ih =>
    obtain ⟨k2, v⟩ := a
    intro hl x hx
    simp only [updAssoc] at hx
    by_cases hk : k2 = k
    · rw [if_pos hk] at hx
      rcases List.mem_cons.mp hx with hx | hx
      · subst hx; exact hg v (hl ⟨k2, v⟩ (List.mem_cons_self _ _))
      · exact hl _ (List.mem_cons_of_mem _ hx)
    · rw [if_neg hk] at hx
      rcases List.mem_cons.mp hx with hx | hx
      · subst hx; exact hl ⟨k2, v⟩ (List.mem_cons_self _ _)
      · exact ih (fun y hy => hl y (List.mem_cons_of_mem _ hy)) x hx

theorem addIfNew_nodup (e : List String) (x : String) (h : e.Nodup) : (addIfNew e x).Nodup := by
  unfold addIfNew
  split
  · next hc =>
    have hx : x ∉ e := fun hm => hc.2 (by simpa using hm)
    refine List.nodup_append.mpr ⟨h, List.nodup_singleton _, ?_⟩
    intro a ha hax
    simp at hax
    subst hax
    exact hx ha
  · exact h

theorem addP_nodup (e : FPEntry) (ph hm : Option String)
    (h1 : e.phases.Nodup) (h2 : e.harmonics.Nodup) :
    (e.addP ph hm).phases.Nodup ∧ (e.addP ph hm).harmonics.Nodup := by
  unfold FPEntry.addP
  cases ph <;> cases hm <;> simp_all [addIfNew_nodup]

/-- `add_failing_point` preserves duplicate freedom of every phase and
harmonic list. -/
theorem add_failing_point_nodup (fps : FPs) (c d : String) (ph hm : Option String)
    (h : FPsNodup fps) : FPsNodup (add_failing_point fps c d ph hm) := by
  intro ce hce
  have inner : ∀ v : List (String × FPEntry),
      (∀ de ∈ v, de.2.phases.Nodup ∧ de.2.harmonics.Nodup) →
      ∀ de ∈ updAssoc v d FPEntry.empty (fun e => e.addP ph hm),
        de.2.phases.Nodup ∧ de.2.harmonics.Nodup := by
    intro v hv
    exact updAssoc_forall_vals (fun e => e.phases.Nodup ∧ e.harmonics.Nodup) v d
      FPEntry.empty _ (addP_nodup FPEntry.empty ph hm (by simp [FPEntry.empty])
        (by simp [FPEntry.empty]))
      (fun w hw => addP_nodup w ph hm hw.1 hw.2) hv
  have h2 : ∀ x ∈ fps, ∀ de ∈ x.2, de.2.phases.Nodup ∧ de.2.harmonics.Nodup := h
  exact updAssoc_forall_vals
    (fun descs : List (String × FPEntry) =>
      ∀ de ∈ descs, de.2.phases.Nodup ∧ de.2.harmonics.Nodup)
    fps c [] (fun descs => updAssoc descs d FPEntry.empty (fun e => e.addP ph hm))
    (inner [] (by simp)) (fun v hv => inner v hv) h2 ce hce

/-! ### Step-level characterisation of the compliance checks -/

theorem vThdStep_vc (L : VRow) (vtp : List (String × Q)) (p : Nat) (st : CompState) :
    (vThdStep L vtp p st).vc =
      if vThdViol1 L vtp p || vThdViol2 L vtp p then "Fail" else st.vc := by
  unfold vThdStep
  cases h1 : vThdViol1 L vtp p <;> cases h2 : vThdViol2 L vtp p <;> simp [h1, h2]

theorem vThdStep_cc (L : VRow) (vtp : List (String × Q)) (p : Nat) (st : CompState) :
    (vThdStep L vtp p st).cc = st.cc := by
  unfold vThdStep
  cases h1 : vThdViol1 L vtp p <;> cases h2 : vThdViol2 L vtp p <;> simp [h1, h2]

theorem vThdStep_fpCat (L : VRow) (vtp : List (String × Q)) (p : Nat) (st : CompState)
    (cat : String) (h : cat ≠ "Voltage THD") :
    fpCat (vThdStep L vtp p st).fps cat = fpCat st.fps cat := by
  unfold vThdStep
  cases h1 : vThdViol1 L vtp p <;> cases h2 : vThdViol2 L vtp p <;>
    simp [h1, h2, fpCat_add_ne _ _ _ _ _ _ h]

theorem vHarmStep_vc (L : VRow) (vhp : List (String × Q)) (h : Nat) (st : CompState) :
    (vHarmStep L vhp h st).vc =
      if !(vHarmFailedPhases L vhp h).isEmpty then "Fail" else st.vc := by
  unfold vHarmStep
  cases he : (vHarmFailedPhases L vhp h).isEmpty <;> simp [he]

theorem vHarmStep_cc (L : VRow) (vhp : List (String × Q)) (h : Nat) (st : CompState) :
    (vHarmStep L vhp h st).cc = st.cc := by
  unfold vHarmStep
  cases he : (vHarmFailedPhases L vhp h).isEmpty <;> simp [he]

theorem vHarmStep_fpCat (L : VRow) (vhp : List (String × Q)) (h : Nat) (st : CompState)
    (cat : String) (hc : cat ≠ "Individual Voltage Harmonics") :
    fpCat (vHarmStep L vhp h st).fps cat = fpCat st.fps cat := by
  unfold vHarmStep
  cases he : (vHarmFailedPhases L vhp h).isEmpty <;>
    simp [he, fpCat_add_ne _ _ _ _ _ _ hc]

theorem cTddStep_cc (hit : Bool) (st : CompState) :
    (cTddStep hit st).cc = if hit then "Fail" else st.cc := by
  unfold cTddStep
  cases hit <;> simp

theorem cTddStep_vc (hit : Bool) (st : CompState) : (cTddStep hit st).vc = st.vc := by
  unfold cTddStep
  cases hit <;> simp

theorem cTddStep_fpCat (hit : Bool) (st : CompState) (cat : String)
    (h : cat ≠ "Current TDD") :
    fpCat (cTddStep hit st).fps cat = fpCat st.fps cat := by
  unfold cTddStep
  cases hit <;> simp [fpCat_add_ne _ _ _ _ _ _ h]

theorem cThdStep_cc (R : CRow) (ctp : List (String × Q)) (p : Nat) (st : CompState) :
    (cThdStep R ctp p st).cc =
      if cThdViol1 R ctp p || cThdViol2 R ctp p || cThdViol3 R ctp p then "Fail" else st.cc := by
  unfold cThdStep
  cases h1 : cThdViol1 R ctp p <;> cases h2 : cThdViol2 R ctp p <;>
    cases h3 : cThdViol3 R ctp p <;> simp [h1, h2, h3]

theorem cThdStep_vc (R : CRow) (ctp : List (String × Q)) (p : Nat) (st : CompState) :
    (cThdStep R ctp p st).vc = st.vc := by
  unfold cThdStep
  cases h1 : cThdViol1 R ctp p <;> cases h2 : cThdViol2 R ctp p <;>
    cases h3 : cThdViol3 R ctp p <;> simp [h1, h2, h3]

theorem cThdStep_fpCat (R : CRow) (ctp : List (String × Q)) (p : Nat) (st : CompState)
    (cat : String) (h : cat ≠ "Current THD") :
    fpCat (cThdStep R ctp p st).fps cat = fpCat st.fps cat := by
  unfold cThdStep
  cases h1 : cThdViol1 R ctp p <;> cases h2 : cThdViol2 R ctp p <;>
    cases h3 : cThdViol3 R ctp p <;> simp [h1, h2, h3, fpCat_add_ne _ _ _ _ _ _ h]

theorem cHarmStep_cc (R : CRow) (ahp : List (String × Q)) (h : Nat) (st : CompState) :
    (cHarmStep R ahp h st).cc =
      if !(cHarmFailedPhases R ahp h).isEmpty then "Fail" else st.cc := by
  unfold cHarmStep
  cases he : (cHarmFailedPhases R ahp h).isEmpty <;> simp [he]

theorem cHarmStep_vc (R : CRow) (ahp : List (String × Q)) (h : Nat) (st : CompState) :
    (cHarmStep R ahp h st).vc = st.vc := by
  unfold cHarmStep
  cases he : (cHarmFailedPhases R ahp h).isEmpty <;> simp [he]

theorem cHarmStep_fpCat (R : CRow) (ahp : List (String × Q)) (h : Nat) (st : CompState)
    (cat : String) (hc : cat ≠ "Individual Current Harmonics") :
    fpCat (cHarmStep R ahp h st).fps cat = fpCat st.fps cat := by
  unfold cHarmStep
  cases he : (cHarmFailedPhases R ahp h).isEmpty <;>
    simp [he, fpCat_add_ne _ _ _ _ _ _ hc]

/-! ### Generic fold lemmas -/

theorem foldl_proj_char {β : Type} (proj : CompState → β) (failv : β)
    (step : Nat → CompState → CompState) (viol : Nat → Bool)
    (hstep : ∀ h st, proj (step h st) = if viol h then failv else proj st) :
    ∀ (l : List Nat) (st : CompState),
      proj (l.foldl (fun s h => step h s) st) = if l.any viol then failv else proj st := by
  intro l
  induction l with
  | nil => intro st; simp
  | cons a t ih =>
    intro st
    simp only [List.foldl_cons, List.any_cons]
    rw [ih, hstep]
    rcases Bool.eq_false_or_eq_true (viol a) with hv | hv <;>
      rcases Bool.eq_false_or_eq_true (t.any viol) with ht | ht <;> simp [hv, ht]

theorem foldl_proj_preserved {β : Type} (proj : CompState → β)
    (step : Nat → CompState → CompState)
    (hstep : ∀ h st, proj (step h st) = proj st) :
    ∀ (l : List Nat) (st : CompState),
      proj (l.foldl (fun s h => step h s) st) = proj st := by
  intro l
  induction l with
  | nil => intro st; rfl
  | cons a t ih =>
    intro st
    simp only [List.foldl_cons]
    rw [ih, hstep]

/-! ### Block-level characterisation -/

theorem voltageBlock_vc (L : VRow) (vtp vhp : List (String × Q)) (st : CompState) :
    (voltageBlock L vtp vhp st).vc = if vAnyViol L vtp vhp then "Fail" else st.vc := by
  unfold voltageBlock vAnyViol
  rw [foldl_proj_char (fun s => s.vc) "Fail" (fun h s => vHarmStep L vhp h s)
      (fun h => !(vHarmFailedPhases L vhp h).isEmpty) (fun h s => vHarmStep_vc L vhp h s)]
  rw [foldl_proj_char (fun s => s.vc) "Fail" (fun p s => vThdStep L vtp p s)
      (fun p => vThdViol1 L vtp p || vThdViol2 L vtp p) (fun p s => vThdStep_vc L vtp p s)]
  rcases Bool.eq_false_or_eq_true
      ([1, 2, 3].any fun p => vThdViol1 L vtp p || vThdViol2 L vtp p) with h1 | h1 <;>
    rcases Bool.eq_false_or_eq_true
        ((List.range' 2 49).any fun h => !(vHarmFailedPhases L vhp h).isEmpty) with h2 | h2 <;>
      simp [h1, h2]

theorem voltageBlock_cc (L : VRow) (vtp vhp : List (String × Q)) (st : CompState) :
    (voltageBlock L vtp vhp st).cc = st.cc := by
  unfold voltageBlock
  rw [foldl_proj_preserved (fun s => s.cc) _ (fun h s => vHarmStep_cc L vhp h s),
      foldl_proj_preserved (fun s => s.cc) _ (fun p s => vThdStep_cc L vtp p s)]

theorem voltageBlock_fpCat (L : VRow) (vtp vhp : List (String × Q)) (st : CompState)
    (cat : String) (h1 : cat ≠ "Voltage THD") (h2 : cat ≠ "Individual Voltage Harmonics") :
    fpCat (voltageBlock L vtp vhp st).fps cat = fpCat st.fps cat := by
  unfold voltageBlock
  rw [foldl_proj_preserved (fun s => fpCat s.fps cat) _
        (fun h s => vHarmStep_fpCat L vhp h s cat h2),
      foldl_proj_preserved (fun s => fpCat s.fps cat) _
        (fun p s => vThdStep_fpCat L vtp p s cat h1)]

theorem currentBlock_cc (rowOpt : Option CRow) (thdi avg il : Q) (ctp ahp : List (String × Q))
    (st : CompState) :
    (currentBlock rowOpt thdi avg il ctp ahp st).cc =
      match rowOpt with
      | none => st.cc
      | some R => if cAnyViol R thdi avg il ctp ahp then "Fail" else st.cc := by
  cases rowOpt with
  | none => rfl
  | some R =>
    show (currentBlock (some R) thdi avg il ctp ahp st).cc = _
    unfold currentBlock cAnyViol
    rw [foldl_proj_char (fun s => s.cc) "Fail" (fun h s => cHarmStep R ahp h s)
        (fun h => !(cHarmFailedPhases R ahp h).isEmpty) (fun h s => cHarmStep_cc R ahp h s)]
    rw [foldl_proj_char (fun s => s.cc) "Fail" (fun p s => cThdStep R ctp p s)
        (fun p => cThdViol1 R ctp p || cThdViol2 R ctp p || cThdViol3 R ctp p)
        (fun p s => cThdStep_cc R ctp p s)]
    rw [cTddStep_cc]
    rcases Bool.eq_false_or_eq_true (tddExceeds thdi avg il R.tdd) with h0 | h0 <;>
      rcases Bool.eq_false_or_eq_true
          ([1, 2, 3].any fun p => cThdViol1 R ctp p || cThdViol2 R ctp p || cThdViol3 R ctp p)
        with h1 | h1 <;>
        rcases Bool.eq_false_or_eq_true
            ((List.range' 2 49).any fun h => !(cHarmFailedPhases R ahp h).isEmpty) with h2 | h2 <;>
          simp [h0, h1, h2]

theorem currentBlock_vc (rowOpt : Option CRow) (thdi avg il : Q) (ctp ahp : List (String × Q))
    (st : CompState) :
    (currentBlock rowOpt thdi avg il ctp ahp st).vc = st.vc := by
  cases rowOpt with
  | none => rfl
  | some R =>
    show (currentBlock (some R) thdi avg il ctp ahp st).vc = _
    unfold currentBlock
    rw [foldl_proj_preserved (fun s => s.vc) _ (fun h s => cHarmStep_vc R ahp h s),
        foldl_proj_preserved (fun s => s.vc) _ (fun p s => cThdStep_vc R ctp p s),
        cTddStep_vc]

theorem currentBlock_fpCat (rowOpt : Option CRow) (thdi avg il : Q) (ctp ahp : List (String × Q))
    (st : CompState) (cat : String) (h1 : cat ≠ "Current TDD") (h2 : cat ≠ "Current THD")
    (h3 : cat ≠ "Individual Current Harmonics") :
    fpCat (currentBlock rowOpt thdi avg il ctp ahp st).fps cat = fpCat st.fps cat := by
  cases rowOpt with
  | none => rfl
  | some R =>
    show fpCat (currentBlock (some R) thdi avg il ctp ahp st).fps cat = _
    unfold currentBlock
    rw [foldl_proj_preserved (fun s => fpCat s.fps cat) _
          (fun h s => cHarmStep_fpCat R ahp h s cat h3),
        foldl_proj_preserved (fun s => fpCat s.fps cat) _
          (fun p s => cThdStep_fpCat R ctp p s cat h2),
        cTddStep_fpCat _ _ _ h1]

theorem complianceOf_vc (tr vh ah : Frame) (nominal isc il : Q) :
    (complianceOf tr vh ah nominal isc il).vc =
      if vAnyViol (v_limit_for nominal) (calculate_thd_percentiles tr "U")
          (calculate_individual_harmonic_percentiles vh "V") then "Fail" else "Pass" := by
  unfold complianceOf
  rw [currentBlock_vc, voltageBlock_vc]

theorem complianceOf_cc (tr vh ah : Frame) (nominal isc il : Q) :
    (complianceOf tr vh ah nominal isc il).cc =
      match c_limit_row_for nominal isc il with
      | none => "Pass"
      | some R =>
        if cAnyViol R (thdiOf tr) (colMean tr "A1 RMS") il (calculate_thd_percentiles tr "A")
            (calculate_individual_harmonic_percentiles ah "A") then "Fail" else "Pass" := by
  unfold complianceOf
  rw [currentBlock_cc]
  cases c_limit_row_for nominal isc il <;> simp [voltageBlock_cc]

theorem Q.not_le_of_lt (a b : Q) (h : a.lt b) : ¬ b.le a := by
  unfold Q.lt at h
  unfold Q.le
  omega

/-- C5: within one run both verdicts start `"Pass"` (the initial state built
in `complianceOf`), each block's final verdict is `"Fail"` exactly when the
already-failed input state or some rule of that block fires (so a `"Fail"` is
never reverted and no check is skipped after an earlier failure), each block
leaves the other verdict untouched, and consequently a failed verdict stays
failed through the rest of the run; the last two conjuncts characterise the
verdicts of the whole pass from their `"Pass"` initialisation. -/
theorem C5_verdicts_monotone_all_rules_evaluated (L : VRow) (vtp vhp : List (String × Q))
    (rowOpt : Option CRow) (thdi avg il : Q) (ctp ahp : List (String × Q)) (st : CompState)
    (tr vh ah : Frame) (nominal isc : Q) :
    ((voltageBlock L vtp vhp st).vc = if vAnyViol L vtp vhp then "Fail" else st.vc) ∧
    ((voltageBlock L vtp vhp st).cc = st.cc) ∧
    ((currentBlock rowOpt thdi avg il ctp ahp st).vc = st.vc) ∧
    ((currentBlock rowOpt thdi avg il ctp ahp st).cc =
      match rowOpt with
      | none => st.cc
      | some R => if cAnyViol R thdi avg il ctp ahp then "Fail" else st.cc) ∧
    (st.vc = "Fail" →
      (currentBlock rowOpt thdi avg il ctp ahp (voltageBlock L vtp vhp st)).vc = "Fail") ∧
    (st.cc = "Fail" →
      (currentBlock rowOpt thdi avg il ctp ahp (voltageBlock L vtp vhp st)).cc = "Fail") ∧
    ((complianceOf tr vh ah nominal isc il).vc =
      if vAnyViol (v_limit_for nominal) (calculate_thd_percentiles tr "U")
          (calculate_individual_harmonic_percentiles vh "V") then "Fail" else "Pass") ∧
    ((complianceOf tr vh ah nominal isc il).cc =
      match c_limit_row_for nominal isc il with
      | none => "Pass"
      | some R =>
        if cAnyViol R (thdiOf tr) (colMean tr "A1 RMS") il (calculate_thd_percentiles tr "A")
            (calculate_individual_harmonic_percentiles ah "A") then "Fail" else "Pass") := by
  refine ⟨voltageBlock_vc L vtp vhp st, voltageBlock_cc L vtp vhp st,
    currentBlock_vc rowOpt thdi avg il ctp ahp st, currentBlock_cc rowOpt thdi avg il ctp ahp st,
    ?_, ?_, complianceOf_vc tr vh ah nominal isc il, complianceOf_cc tr vh ah nominal isc il⟩
  · intro hv
    rw [currentBlock_vc, voltageBlock_vc, hv]
    split <;> rfl
  · intro hc
    rw [currentBlock_cc]
    cases rowOpt with
    | none => rw [voltageBlock_cc, hc]
    | some R =>
      show (if cAnyViol R thdi avg il ctp ahp then "Fail"
        else (voltageBlock L vtp vhp st).cc) = "Fail"
      rw [voltageBlock_cc, hc]
      split <;> rfl

theorem C5_verdicts_monotone_all_rules_evaluated_witness :
    (currentBlock none Q.zero Q.zero Q.zero [] []
      (voltageBlock VOLTAGE_LIMITS_le1kV [] [] ⟨"Fail", "Fail", []⟩)).vc = "Fail" ∧
    (currentBlock none Q.zero Q.zero Q.zero [] []
      (voltageBlock VOLTAGE_LIMITS_le1kV [] [] ⟨"Fail", "Fail", []⟩)).cc = "Fail" :=
  ⟨(C5_verdicts_monotone_all_rules_evaluated VOLTAGE_LIMITS_le1kV [] [] none Q.zero Q.zero
      Q.zero [] [] ⟨"Fail", "Fail", []⟩ emptyFrame emptyFrame emptyFrame Q.zero
      Q.zero).2.2.2.2.1 rfl,
   (C5_verdicts_monotone_all_rules_evaluated VOLTAGE_LIMITS_le1kV [] [] none Q.zero Q.zero
      Q.zero [] [] ⟨"Fail", "Fail", []⟩ emptyFrame emptyFrame emptyFrame Q.zero
      Q.zero).2.2.2.2.2.1 rfl⟩

/-- C8: above 69 kV no current-limit row is selected, so the whole current
block is skipped: current compliance is reported `"Pass"` and no
current-related failing-point category is ever recorded, whatever the data;
the final conjunct transports this to any successful `analyze_full_data`
run. -/
theorem C8_above_69kV_current_vacuously_passes (tr vh ah : Frame) (nominal isc il : Q)
    (h : (Q.ofInt 69000).lt nominal) :
    (complianceOf tr vh ah nominal isc il).cc = "Pass" ∧
    fpCat (complianceOf tr vh ah nominal isc il).fps "Current TDD" = none ∧
    fpCat (complianceOf tr vh ah nominal isc il).fps "Current THD" = none ∧
    fpCat (complianceOf tr vh ah nominal isc il).fps "Individual Current Harmonics" = none ∧
    (∀ (dfs : List (String × Frame)) (r : Report),
      analyze_full_data dfs nominal isc il = Except.ok r →
      r.current_compliance = "Pass" ∧
      fpCat r.failing_points "Current TDD" = none ∧
      fpCat r.failing_points "Current THD" = none ∧
      fpCat r.failing_points "Individual Current Harmonics" = none) := by
  have hrow : c_limit_row_for nominal isc il = none := by
    unfold c_limit_row_for
    rw [if_neg (Q.not_le_of_lt _ _ h)]
  have main : ∀ tr2 vh2 ah2 : Frame,
      (complianceOf tr2 vh2 ah2 nominal isc il).cc = "Pass" ∧
      fpCat (complianceOf tr2 vh2 ah2 nominal isc il).fps "Current TDD" = none ∧
      fpCat (complianceOf tr2 vh2 ah2 nominal isc il).fps "Current THD" = none ∧
      fpCat (complianceOf tr2 vh2 ah2 nominal isc il).fps "Individual Current Harmonics" =
        none := by
    intro tr2 vh2 ah2
    have hcat : ∀ cat : String, cat ≠ "Voltage THD" → cat ≠ "Individual Voltage Harmonics" →
        fpCat (complianceOf tr2 vh2 ah2 nominal isc il).fps cat = none := by
      intro cat hc1 hc2
      unfold complianceOf
      rw [hrow]
      show fpCat (voltageBlock _ _ _ ⟨"Pass", "Pass", []⟩).fps cat = none
      rw [voltageBlock_fpCat _ _ _ _ _ hc1 hc2]
      rfl
    refine ⟨?_, hcat _ (by decide) (by decide), hcat _ (by decide) (by decide),
      hcat _ (by decide) (by decide)⟩
    rw [complianceOf_cc, hrow]
  refine ⟨(main tr vh ah).1, (main tr vh ah).2.1, (main tr vh ah).2.2.1, (main tr vh ah).2.2.2,
    ?_⟩
  intro dfs r hr
  unfold analyze_full_data at hr
  rcases hT : ((dfs.find? fun p => p.1 == "Trend").map fun p => p.2) with _ | tr2
  · rw [hT] at hr; simp at hr
  rcases hV : ((dfs.find? fun p => p.1 == "Vh Harmonic %").map fun p => p.2) with _ | vh2
  · rw [hT, hV] at hr; simp at hr
  rcases hA : ((dfs.find? fun p => p.1 == "Ah Harmonic %").map fun p => p.2) with _ | ah2
  · rw [hT, hV, hA] at hr; simp at hr
  rw [hT, hV, hA] at hr
  dsimp only at hr
  rcases hB : buildTrendData tr2 with e | td
  · rw [hB] at hr; simp at hr
  rw [hB] at hr
  simp only [Except.ok.injEq] at hr
  subst hr
  exact ⟨(main tr2 vh2 ah2).1, (main tr2 vh2 ah2).2.1, (main tr2 vh2 ah2).2.2.1,
    (main tr2 vh2 ah2).2.2.2⟩

theorem C8_above_69kV_current_vacuously_passes_witness :
    (complianceOf emptyFrame emptyFrame emptyFrame (Q.ofInt 70000) (Q.ofInt 1)
      (Q.ofInt 1)).cc = "Pass" ∧
    fpCat (complianceOf emptyFrame emptyFrame emptyFrame (Q.ofInt 70000) (Q.ofInt 1)
      (Q.ofInt 1)).fps "Current TDD" = none :=
  ⟨(C8_above_69kV_current_vacuously_passes emptyFrame emptyFrame emptyFrame (Q.ofInt 70000)
      (Q.ofInt 1) (Q.ofInt 1) (by decide)).1,
   (C8_above_69kV_current_vacuously_passes emptyFrame emptyFrame emptyFrame (Q.ofInt 70000)
      (Q.ofInt 1) (Q.ofInt 1) (by decide)).2.1⟩

/-! ### Concrete runs -/

set_option maxRecDepth 1000000

def c1Sheets : List (String × Frame) := sheetsOf emptyFrame emptyFrame emptyFrame

def runC1 : Except String Report :=
  analyze_full_data c1Sheets (Q.ofInt 400) (Q.ofInt 1000) (Q.ofInt 50)

def runC2min : Except String Report :=
  analyze_full_data (sheetsOf c2TrendMin emptyFrame emptyFrame) (Q.ofInt 400) (Q.ofInt 1000)
    (Q.ofInt 50)

def runC2full : Except String Report :=
  analyze_full_data (sheetsOf c2TrendFull emptyFrame emptyFrame) (Q.ofInt 400) (Q.ofInt 1000)
    (Q.ofInt 50)

def runC2fullPF : Except String Report :=
  analyze_full_data (sheetsOf c2TrendFullPF emptyFrame emptyFrame) (Q.ofInt 400) (Q.ofInt 1000)
    (Q.ofInt 50)

def runC3 : Except String Report :=
  analyze_full_data (sheetsOf c2TrendFull vhTwoOrders emptyFrame) (Q.ofInt 400) (Q.ofInt 1000)
    (Q.ofInt 50)

/-- C1: with no sheets the engine raises the worksheet error, but with all
three worksheets present (three empty frames, a permitted "whatever their
columns" input) it still raises: `series_to_json_list` calls
`clean_df.get(col_name)` without a default, so the first trend channel absent
from the sheet turns into `pd.to_numeric(None).fillna` - an `AttributeError` -
instead of the promised complete report. -/
theorem C1_sheets_present_still_raises :
    getErr (analyze_full_data [] (Q.ofInt 400) (Q.ofInt 1000) (Q.ofInt 50)) =
      some "Missing required worksheets." ∧
    ((c1Sheets.find? fun p => p.1 == "Trend").isSome ∧
     (c1Sheets.find? fun p => p.1 == "Vh Harmonic %").isSome ∧
     (c1Sheets.find? fun p => p.1 == "Ah Harmonic %").isSome) ∧
    getErr runC1 = some attrErrMsg := by decide

/-- C2 (counterexample): on the end-to-end input exactly as described - a
trend table carrying only constant U1 RMS = 230 and 0% THD columns - the
engine raises the `series_to_json_list` `AttributeError` (the first absent
trend channel, `U2 RMS`) and returns no verdicts at all, contradicting the
claimed `Pass`/`Pass`/empty/healthy report. -/
theorem C2_described_input_crashes :
    getErr runC2min = some attrErrMsg ∧ getVC runC2min = none ∧ getRecs runC2min = none := by
  decide

/-- C2 (amended): completing the scenario's table with every trend channel
(zeros elsewhere) yields `Pass`/`Pass` with no failing points, but the
recommendation is the single power-factor message (no power data means
`power_factor_avg` = 0 < 0.95); the single "system healthy" message appears
once the table also carries equal positive W/VA totals (power factor 1). -/
theorem C2_amended_end_to_end :
    (getVC runC2full = some "Pass" ∧ getCC runC2full = some "Pass" ∧
     getFPs runC2full = some [] ∧ getRecs runC2full = some [msgPF]) ∧
    (getVC runC2fullPF = some "Pass" ∧ getCC runC2fullPF = some "Pass" ∧
     getFPs runC2fullPF = some [] ∧ getRecs runC2fullPF = some [msgHealthy]) := by decide

/-- C3 (counterexample): two harmonic orders (2 and 3) violating on the same
phase under the same rule produce two separate description entries
`"Harmonic 2 > limit"` and `"Harmonic 3 > limit"` under the one category, each
with an empty harmonics set - not two harmonic identifiers under one
(category, description) pair as claimed. -/
theorem C3_two_orders_two_description_entries :
    (getFPs runC3).map (fun fps => fpCat fps "Individual Voltage Harmonics") =
      some (some [("Harmonic 2 > limit", ⟨["V1"], []⟩),
                  ("Harmonic 3 > limit", ⟨["V1"], []⟩)]) := by decide

/-- C3 (amended): two distinct violating orders produce two description
entries under the single `"Individual Voltage Harmonics"` category entry (the
per-order description embeds the order; the `harmonic` argument of
`add_failing_point` is never supplied), and within any one
(category, description) entry the phase and harmonic lists accumulate without
duplicates. -/
theorem C3_amended_grouping (fps : FPs) (c d : String) (ph hm : Option String)
    (h : FPsNodup fps) :
    FPsNodup (add_failing_point fps c d ph hm) ∧
    getFPs runC3 = some [("Individual Voltage Harmonics",
      [("Harmonic 2 > limit", ⟨["V1"], []⟩), ("Harmonic 3 > limit", ⟨["V1"], []⟩)])] :=
  ⟨add_failing_point_nodup fps c d ph hm h, by decide⟩

theorem C3_amended_grouping_witness :
    FPsNodup (add_failing_point [] "Individual Voltage Harmonics" "Harmonic 2 > limit"
      (some "V1") none) :=
  (C3_amended_grouping [] "Individual Voltage Harmonics" "Harmonic 2 > limit" (some "V1") none
    (fun ce hce => absurd hce (List.not_mem_nil ce))).1

/-! ### The TDD formula (C4) -/

/-- C4: the computed TDD is 0 whenever the resampled 95th-percentile THDi,
the average RMS current, or Il is nonpositive (the guard takes the zero
branch, no division happens), and otherwise equals
`avgCurrent * (f / sqrt(1 + f^2)) / Il * 100` with `f = THDi / 100`, the
spec's formula (an algebraic rearrangement of the code's
`(avg / sqrt(1 + f^2)) * f / il * 100`). -/
theorem C4_tdd_guard_and_formula (thdi avg il : ℚ) :
    ((thdi ≤ 0 ∨ avg ≤ 0 ∨ il ≤ 0) → tddR thdi avg il = 0) ∧
    (0 < thdi → 0 < avg → 0 < il →
      tddR thdi avg il =
        (avg : ℝ) * (((thdi : ℝ) / 100) / Real.sqrt (1 + ((thdi : ℝ) / 100) ^ 2)) /
          (il : ℝ) * 100) := by
  constructor
  · intro h
    unfold tddR
    rw [if_neg]
    intro hc
    obtain ⟨h1, h2, h3⟩ := hc
    rcases h with h | h | h
    · exact absurd h1 (not_lt.mpr h)
    · exact absurd h2 (not_lt.mpr h)
    · exact absurd h3 (not_lt.mpr h)
  · intro h1 h2 h3
    unfold tddR
    rw [if_pos ⟨h1, h2, h3⟩, if_pos h3]
    ring

theorem C4_tdd_guard_and_formula_witness :
    tddR (-1) 2 3 = 0 ∧
    tddR 5 100 120 =
      ((100 : ℚ) : ℝ) * ((((5 : ℚ) : ℝ) / 100) / Real.sqrt (1 + (((5 : ℚ) : ℝ) / 100) ^ 2)) /
        ((120 : ℚ) : ℝ) * 100 :=
  ⟨(C4_tdd_guard_and_formula (-1) 2 3).1 (Or.inl (by norm_num)),
   (C4_tdd_guard_and_formula 5 100 120).2 (by norm_num) (by norm_num) (by norm_num)⟩

/-- The kernel-computable comparison used inside the compliance pass agrees
with the real comparison `tdd > limit` for the (nonnegative) table limits. -/
theorem tddExceeds_iff (thdi avg il L : Q) (hL : 0 ≤ L.toRat) :
    tddExceeds thdi avg il L = true ↔
      (L.toRat : ℝ) < tddR thdi.toRat avg.toRat il.toRat := by
  unfold tddExceeds
  by_cases hg : Q.zero.lt thdi ∧ Q.zero.lt avg ∧ Q.zero.lt il
  · rw [if_pos hg]
    obtain ⟨g1, g2, g3⟩ := hg
    rw [Q.lt_iff, Q.toRat_zero] at g1 g2 g3
    unfold tddR
    rw [if_pos ⟨g1, g2, g3⟩, if_pos g3]
    rw [decide_eq_true_iff, Q.lt_iff]
    simp only [Q.toRat_mul, Q.toRat_div, Q.toRat_add, Q.toRat_ofInt]
    have castlt : ∀ p q : ℚ, (p < q) = ((p : ℝ) < (q : ℝ)) := by
      intro p q
      apply propext
      constructor
      · intro h; exact_mod_cast h
      · intro h; exact_mod_cast h
    rw [castlt]
    push_cast
    have hi : (0 : ℝ) < (il.toRat : ℝ) := by exact_mod_cast g3
    have ha : (0 : ℝ) < (avg.toRat : ℝ) := by exact_mod_cast g2
    have hx : (0 : ℝ) < (thdi.toRat : ℝ) := by exact_mod_cast g1
    have hSq : (0 : ℝ) ≤ 1 + ((thdi.toRat : ℝ) / 100) ^ 2 := by positivity
    have hS : (0 : ℝ) < Real.sqrt (1 + ((thdi.toRat : ℝ) / 100) ^ 2) :=
      Real.sqrt_pos.mpr (by positivity)
    have hX : (0 : ℝ) <
        (avg.toRat : ℝ) * ((thdi.toRat : ℝ) / 100) * 100 / (il.toRat : ℝ) := by positivity
    have hLpos : (0 : ℝ) ≤ (L.toRat : ℝ) := by exact_mod_cast hL
    have hT : ((avg.toRat : ℝ) / Real.sqrt (1 + ((thdi.toRat : ℝ) / 100) ^ 2)) *
          ((thdi.toRat : ℝ) / 100) / (il.toRat : ℝ) * 100 =
        ((avg.toRat : ℝ) * ((thdi.toRat : ℝ) / 100) * 100 / (il.toRat : ℝ)) /
          Real.sqrt (1 + ((thdi.toRat : ℝ) / 100) ^ 2) := by
      field_simp
      ring
    rw [hT, lt_div_iff hS]
    have e1 : (L.toRat : ℝ) * (L.toRat : ℝ) *
          (1 + (thdi.toRat : ℝ) / 100 * ((thdi.toRat : ℝ) / 100)) =
        ((L.toRat : ℝ) * Real.sqrt (1 + ((thdi.toRat : ℝ) / 100) ^ 2)) ^ 2 := by
      rw [mul_pow, Real.sq_sqrt hSq]
      ring
    have e2 : (avg.toRat : ℝ) * ((thdi.toRat : ℝ) / 100) * 100 / (il.toRat : ℝ) *
          ((avg.toRat : ℝ) * ((thdi.toRat : ℝ) / 100) * 100 / (il.toRat : ℝ)) =
        ((avg.toRat : ℝ) * ((thdi.toRat : ℝ) / 100) * 100 / (il.toRat : ℝ)) ^ 2 := by
      ring
    rw [e1, e2]
    exact pow_lt_pow_iff_left (mul_nonneg hLpos (le_of_lt hS)) (le_of_lt hX) two_ne_zero
  · rw [if_neg hg]
    unfold tddR
    have hng : ¬(0 < thdi.toRat ∧ 0 < avg.toRat ∧ 0 < il.toRat) := by
      intro hc
      exact hg ⟨(Q.lt_iff Q.zero thdi).mpr (by rw [Q.toRat_zero]; exact hc.1),
        (Q.lt_iff Q.zero avg).mpr (by rw [Q.toRat_zero]; exact hc.2.1),
        (Q.lt_iff Q.zero il).mpr (by rw [Q.toRat_zero]; exact hc.2.2)⟩
    rw [if_neg hng]
    rw [decide_eq_true_iff, Q.lt_iff, Q.toRat_zero]
    constructor
    · intro h
      exact_mod_cast h
    · intro h
      exact_mod_cast h

/-! ### Current ratio band selection (C7) -/

theorem Q.le_of_not_lt (a b : Q) (h : ¬ a.lt b) : b.le a := by
  unfold Q.lt at h
  unfold Q.le
  omega

/-- C7: the ratio is defined as 0 whenever Il ≤ 0; for every nonnegative
ratio the loop's first match equals the spec-side band table (closed-low /
open-high, so a boundary value selects the higher band and 0 selects the
lowest); the bands are pairwise disjoint, making the selected row unique; and
every ratio at or above 1000 selects the unbounded top row. -/
theorem C7_ratio_band_selection (isc il r : Q) (hil : ¬ Q.zero.lt il) (hr : Q.zero.le r) :
    iscIlRat isc il = Q.zero ∧
    selectCRow r = some (specCurrentRow r) ∧
    (∀ b1 b2, b1 ∈ CURRENT_LIMITS_120V_to_69kV → b2 ∈ CURRENT_LIMITS_120V_to_69kV →
      bandContains b1.1 r = true → bandContains b2.1 r = true → b1 = b2) ∧
    selectCRow Q.zero = some cRowA ∧
    selectCRow (Q.ofInt 20) = some cRowB ∧
    (∀ r2 : Q, (Q.ofInt 1000).le r2 → selectCRow r2 = some cRowE) := by
  refine ⟨?_, ?_, ?_, by decide, by decide, ?_⟩
  · unfold iscIlRat
    rw [if_neg hil]
  · have hr0 : (Q.ofInt 0).le r := hr
    unfold selectCRow specCurrentRow CURRENT_LIMITS_120V_to_69kV bandContains
    by_cases h1 : r.lt (Q.ofInt 20)
    · simp [List.find?, hr0, h1]
    · have h1b : (Q.ofInt 20).le r := Q.le_of_not_lt _ _ h1
      by_cases h2 : r.lt (Q.ofInt 50)
      · simp [List.find?, hr0, h1, h1b, h2]
      · have h2b : (Q.ofInt 50).le r := Q.le_of_not_lt _ _ h2
        by_cases h3 : r.lt (Q.ofInt 100)
        · simp [List.find?, hr0, h1, h2, h1b, h2b, h3]
        · have h3b : (Q.ofInt 100).le r := Q.le_of_not_lt _ _ h3
          by_cases h4 : r.lt (Q.ofInt 1000)
          · simp [List.find?, hr0, h1, h2, h3, h1b, h2b, h3b, h4]
          · have h4b : (Q.ofInt 1000).le r := Q.le_of_not_lt _ _ h4
            simp [List.find?, hr0, h1, h2, h3, h4, h1b, h2b, h3b, h4b]
  · intro b1 b2 hb1 hb2 hc1 hc2
    have hp := r.pos
    fin_cases hb1 <;> fin_cases hb2 <;>
      simp_all [bandContains, Q.lt, Q.le, Q.ofInt] <;> omega
  · intro r2 h
    have hp := r2.pos
    have hnum : 1000 * r2.den ≤ r2.num := by
      unfold Q.le Q.ofInt at h
      simpa using h
    have mk : ∀ n : Int, ¬ r2.lt (Q.ofInt n) ↔ ¬ r2.num < n * r2.den := by
      intro n
      unfold Q.lt Q.ofInt
      simp
    have n1 : ¬ r2.lt (Q.ofInt 20) := (mk 20).mpr (by omega)
    have n2 : ¬ r2.lt (Q.ofInt 50) := (mk 50).mpr (by omega)
    have n3 : ¬ r2.lt (Q.ofInt 100) := (mk 100).mpr (by omega)
    have n4 : ¬ r2.lt (Q.ofInt 1000) := (mk 1000).mpr (by omega)
    have hge : (Q.ofInt 1000).le r2 := h
    unfold selectCRow CURRENT_LIMITS_120V_to_69kV bandContains
    simp [List.find?, n1, n2, n3, n4, hge]

theorem C7_ratio_band_selection_witness :
    iscIlRat (Q.ofInt 5) (Q.ofInt (-1)) = Q.zero ∧
    selectCRow (Q.ofInt 20) = some (specCurrentRow (Q.ofInt 20)) ∧
    selectCRow (Q.ofInt 5000) = some cRowE :=
  ⟨(C7_ratio_band_selection (Q.ofInt 5) (Q.ofInt (-1)) (Q.ofInt 20) (by decide) (by decide)).1,
   (C7_ratio_band_selection (Q.ofInt 5) (Q.ofInt (-1)) (Q.ofInt 20) (by decide)
     (by decide)).2.1,
   (C7_ratio_band_selection (Q.ofInt 5) (Q.ofInt (-1)) (Q.ofInt 20) (by decide)
     (by decide)).2.2.2.2.2 (Q.ofInt 5000) (by decide)⟩

/-! ### Safe numeric defaults (C9) -/

theorem sumQ_replicate_zero (n : Nat) : sumQ (List.replicate n Q.zero) = Q.zero := by
  have hz : Q.zero.add Q.zero = Q.zero := by decide
  induction n with
  | zero => rfl
  | succ m ih =>
    unfold sumQ at ih ⊢
    rw [List.replicate_succ, List.foldl_cons, hz]
    exact ih

theorem to_numeric_safe_all_missing (m : List Cell) (hm : ∀ c ∈ m, c.toNum? = none) :
    to_numeric_safe m = List.replicate m.length Q.zero := by
  induction m with
  | nil => rfl
  | cons a t ih =>
    simp only [to_numeric_safe, List.map_cons, List.length_cons, List.replicate_succ]
    rw [hm a (List.mem_cons_self _ _)]
    have ht := ih (fun c hc => hm c (List.mem_cons_of_mem _ hc))
    simp only [to_numeric_safe] at ht
    rw [ht]
    rfl

/-- C9: the percentile helper returns exactly 0.0 on an empty or all-NaN
series; the mean path (`to_numeric_safe` then `mean` then `nan_to_zero`)
yields the value zero on empty and all-missing columns; and coercion turns a
mixed-type column into a same-length numeric column with every unparsable
entry exactly zero. -/
theorem C9_empty_and_missing_series (l : List (Option Q)) (cl : List Cell) (p : Q)
    (hall : l.all Option.isNone = true)
    (hmiss : ∀ c ∈ cl, c.toNum? = none) :
    get_percentile_safe [] p = Q.zero ∧
    get_percentile_safe l p = Q.zero ∧
    nan_to_zero (meanOpt []) = Q.zero ∧
    (nan_to_zero (meanOpt (to_numeric_safe cl))).toRat = 0 ∧
    (∀ cl2 : List Cell, (to_numeric_safe cl2).length = cl2.length) ∧
    (∀ (cl2 : List Cell) (i : Nat) (hi : i < cl2.length),
      (cl2.get ⟨i, hi⟩).toNum? = none →
      (to_numeric_safe cl2).getD i Q.zero = Q.zero) := by
  refine ⟨rfl, ?_, rfl, ?_, ?_, ?_⟩
  · unfold get_percentile_safe
    rw [hall]
    simp
  · rw [to_numeric_safe_all_missing cl hmiss]
    cases hn : cl.length with
    | zero => exact Q.toRat_zero
    | succ m =>
      unfold meanOpt
      have hne : (List.replicate (m + 1) Q.zero).isEmpty = false := by
        rw [List.replicate_succ]
        rfl
      rw [hne]
      simp only [Bool.false_eq_true, if_false, nan_to_zero, Option.getD_some]
      rw [sumQ_replicate_zero, Q.toRat_div, Q.toRat_zero, zero_div]
  · intro cl2
    unfold to_numeric_safe
    exact List.length_map _ _
  · intro cl2 i hi hcell
    unfold to_numeric_safe
    have hstep : (List.map (fun c => c.toNum?.getD Q.zero) cl2).getD i Q.zero =
        (cl2.get ⟨i, hi⟩).toNum?.getD Q.zero := by
      rw [List.getD_eq_getElem?_getD, List.getElem?_map, List.getElem?_eq_getElem hi]
      rfl
    rw [hstep, hcell]
    rfl

theorem C9_empty_and_missing_series_witness :
    get_percentile_safe [none] (Q.ofInt 95) = Q.zero ∧
    (nan_to_zero (meanOpt (to_numeric_safe [Cell.na, Cell.str "x"]))).toRat = 0 :=
  ⟨(C9_empty_and_missing_series [none] [Cell.na, Cell.str "x"] (Q.ofInt 95) (by decide)
      (by decide)).2.1,
   (C9_empty_and_missing_series [none] [Cell.na, Cell.str "x"] (Q.ofInt 95) (by decide)
      (by decide)).2.2.2.1⟩

/-! ### Phase-1-only dependence of the distortion figures (C10) -/

/-- The columns the two inputs of C10 are allowed to differ in. -/
def c10Bad : List String := ["U2 THD", "U3 THD", "A2 THD", "A3 THD"]

theorem keptRows_congr (t1 t2 : Frame) (hn : t1.nrows = t2.nrows)
    (hc : ∀ c, c ∉ c10Bad → t1.get? c = t2.get? c) :
    keptRows t1 = keptRows t2 := by
  unfold keptRows rawTimes
  rw [hc "Date" (by decide), hc "Time" (by decide), hn]

theorem cleanNumCol_congr (t1 t2 : Frame) (hn : t1.nrows = t2.nrows)
    (hc : ∀ c, c ∉ c10Bad → t1.get? c = t2.get? c) (c : String) (hcc : c ∉ c10Bad) :
    cleanNumCol t1 c = cleanNumCol t2 c := by
  unfold cleanNumCol
  rw [hc c hcc, keptRows_congr t1 t2 hn hc]

theorem cleanColD_congr (t1 t2 : Frame) (hn : t1.nrows = t2.nrows)
    (hc : ∀ c, c ∉ c10Bad → t1.get? c = t2.get? c) (c : String) (hcc : c ∉ c10Bad) :
    cleanColD t1 c = cleanColD t2 c := by
  unfold cleanColD cleanCol?
  rw [hc c hcc, keptRows_congr t1 t2 hn hc]

theorem colBlock_congr (t1 t2 : Frame) (hn : t1.nrows = t2.nrows)
    (hc : ∀ c, c ∉ c10Bad → t1.get? c = t2.get? c) (c : String) (hcc : c ∉ c10Bad) :
    colBlock t1 c = colBlock t2 c := by
  unfold colBlock
  rw [hc c hcc, cleanNumCol_congr t1 t2 hn hc c hcc]

theorem colMean_congr (t1 t2 : Frame) (hn : t1.nrows = t2.nrows)
    (hc : ∀ c, c ∉ c10Bad → t1.get? c = t2.get? c) (c : String) (hcc : c ∉ c10Bad) :
    colMean t1 c = colMean t2 c := by
  unfold colMean
  rw [cleanColD_congr t1 t2 hn hc c hcc]

theorem colBlock_keys (f : Frame) (col : String) :
    ∀ kv ∈ colBlock f col, kv.1 = col ++ "_99th_3s" ∨ kv.1 = col ++ "_95th_10min" ∨
      kv.1 = col ++ "_99th_10min" := by
  intro kv hkv
  unfold colBlock at hkv
  cases hg : f.get? col with
  | none => rw [hg] at hkv; simp at hkv
  | some c =>
    rw [hg] at hkv
    rcases Bool.eq_false_or_eq_true (cleanNumCol f col).isEmpty with he | he <;>
      rw [he] at hkv
    · rw [if_pos rfl] at hkv
      exact absurd hkv (List.not_mem_nil kv)
    · rw [if_neg Bool.false_ne_true] at hkv
      rcases Bool.eq_false_or_eq_true (resample10 (cleanNumCol f col)).isEmpty with hr | hr <;>
        rw [hr] at hkv
      · rw [if_pos rfl] at hkv
        rcases List.mem_cons.mp hkv with h | h
        · rw [h]; simp
        · exact absurd h (List.not_mem_nil kv)
      · rw [if_neg Bool.false_ne_true] at hkv
        rcases List.mem_cons.mp hkv with h | h
        · rw [h]; simp
        · rcases List.mem_cons.mp h with h2 | h2
          · rw [h2]; simp
          · rcases List.mem_cons.mp h2 with h3 | h3
            · rw [h3]; simp
            · exact absurd h3 (List.not_mem_nil kv)

theorem find?_colBlock_none (f : Frame) (col key : String)
    (h1 : key ≠ col ++ "_99th_3s") (h2 : key ≠ col ++ "_95th_10min")
    (h3 : key ≠ col ++ "_99th_10min") :
    (colBlock f col).find? (fun p => p.1 == key) = none := by
  rw [List.find?_eq_none]
  intro kv hkv
  rcases colBlock_keys f col kv hkv with h | h | h <;> rw [h] <;>
    simp only [beq_iff_eq] <;>
    first
      | exact fun e => h1 e.symm
      | exact fun e => h2 e.symm
      | exact fun e => h3 e.symm

theorem thdvOf_congr (t1 t2 : Frame) (hn : t1.nrows = t2.nrows)
    (hc : ∀ c, c ∉ c10Bad → t1.get? c = t2.get? c) :
    thdvOf t1 = thdvOf t2 := by
  unfold thdvOf calculate_thd_percentiles lookupD
  rw [List.find?_append, List.find?_append, List.find?_append, List.find?_append]
  simp only [show ("U" ++ "1 THD" : String) = "U1 THD" from rfl,
    show ("U" ++ "2 THD" : String) = "U2 THD" from rfl,
    show ("U" ++ "3 THD" : String) = "U3 THD" from rfl]
  rw [colBlock_congr t1 t2 hn hc "U1 THD" (by decide)]
  rw [find?_colBlock_none t1 "U2 THD" _ (by decide) (by decide) (by decide),
      find?_colBlock_none t2 "U2 THD" _ (by decide) (by decide) (by decide),
      find?_colBlock_none t1 "U3 THD" _ (by decide) (by decide) (by decide),
      find?_colBlock_none t2 "U3 THD" _ (by decide) (by decide) (by decide)]

theorem thdiOf_congr (t1 t2 : Frame) (hn : t1.nrows = t2.nrows)
    (hc : ∀ c, c ∉ c10Bad → t1.get? c = t2.get? c) :
    thdiOf t1 = thdiOf t2 := by
  unfold thdiOf calculate_thd_percentiles lookupD
  rw [List.find?_append, List.find?_append, List.find?_append, List.find?_append]
  simp only [show ("A" ++ "1 THD" : String) = "A1 THD" from rfl,
    show ("A" ++ "2 THD" : String) = "A2 THD" from rfl,
    show ("A" ++ "3 THD" : String) = "A3 THD" from rfl]
  rw [colBlock_congr t1 t2 hn hc "A1 THD" (by decide)]
  rw [find?_colBlock_none t1 "A2 THD" _ (by decide) (by decide) (by decide),
      find?_colBlock_none t2 "A2 THD" _ (by decide) (by decide) (by decide),
      find?_colBlock_none t1 "A3 THD" _ (by decide) (by decide) (by decide),
      find?_colBlock_none t2 "A3 THD" _ (by decide) (by decide) (by decide)]

/-- C10: two trend tables of equal shape that differ only in the phase-2/3
THD columns produce identical overall THDv, THDi, and TDD figures: those are
read exclusively from the `U1 THD` / `A1 THD` 10-minute 95th percentiles and
the `A1 RMS` average; the final conjunct transports this to successful
end-to-end runs. -/
theorem C10_distortion_depends_only_on_phase1 (t1 t2 : Frame) (il : Q)
    (hn : t1.nrows = t2.nrows)
    (hc : ∀ c, c ∉ c10Bad → t1.get? c = t2.get? c) :
    thdvOf t1 = thdvOf t2 ∧
    thdiOf t1 = thdiOf t2 ∧
    (summaryOf t1).thdi_percent_avg = (summaryOf t2).thdi_percent_avg ∧
    analyzeTdd t1 il = analyzeTdd t2 il ∧
    (∀ (vh ah : Frame) (nominal isc : Q) (r1 r2 : Report),
      analyze_full_data (sheetsOf t1 vh ah) nominal isc il = Except.ok r1 →
      analyze_full_data (sheetsOf t2 vh ah) nominal isc il = Except.ok r2 →
      r1.thdv_percent = r2.thdv_percent ∧
      r1.summary_stats.thdi_percent_avg = r2.summary_stats.thdi_percent_avg) := by
  have hv := thdvOf_congr t1 t2 hn hc
  have hi := thdiOf_congr t1 t2 hn hc
  have hm := colMean_congr t1 t2 hn hc "A1 RMS" (by decide)
  refine ⟨hv, hi, ?_, ?_, ?_⟩
  · unfold summaryOf
    simp only
    rw [hi]
  · unfold analyzeTdd
    rw [hi, hm]
  · intro vh ah nominal isc r1 r2 h1 h2
    unfold analyze_full_data sheetsOf at h1 h2
    simp only [List.find?] at h1 h2
    have e1 : (("Trend" : String) == "Trend") = true := by decide
    have e2 : (("Trend" : String) == "Vh Harmonic %") = false := by decide
    have e3 : (("Trend" : String) == "Ah Harmonic %") = false := by decide
    have e4 : (("Vh Harmonic %" : String) == "Vh Harmonic %") = true := by decide
    have e5 : (("Vh Harmonic %" : String) == "Ah Harmonic %") = false := by decide
    have e6 : (("Ah Harmonic %" : String) == "Ah Harmonic %") = true := by decide
    rw [e1, e2, e3, e4, e5, e6] at h1 h2
    simp only [Option.map] at h1 h2
    rcases hb1 : buildTrendData t1 with x | td1
    · rw [hb1] at h1; simp at h1
    rcases hb2 : buildTrendData t2 with x | td2
    · rw [hb2] at h2; simp at h2
    rw [hb1] at h1
    rw [hb2] at h2
    simp only [Except.ok.injEq] at h1 h2
    subst h1
    subst h2
    constructor
    · show nan_to_zero (some (thdvOf t1)) = nan_to_zero (some (thdvOf t2))
      rw [hv]
    · show (summaryOf t1).thdi_percent_avg = (summaryOf t2).thdi_percent_avg
      unfold summaryOf
      simp only
      rw [hi]

theorem C10_distortion_depends_only_on_phase1_witness :
    thdvOf ⟨[("U2 THD", [qcell 1])]⟩ = thdvOf ⟨[("U2 THD", [qcell 2])]⟩ ∧
    thdiOf ⟨[("U2 THD", [qcell 1])]⟩ = thdiOf ⟨[("U2 THD", [qcell 2])]⟩ :=
  ⟨(C10_distortion_depends_only_on_phase1 ⟨[("U2 THD", [qcell 1])]⟩ ⟨[("U2 THD", [qcell 2])]⟩
      Q.zero (by decide)
      (fun c hcm => by
        have hne : (("U2 THD" : String) == c) = false := by
          rw [beq_eq_false_iff_ne]
          intro e
          exact hcm (e ▸ (by decide : ("U2 THD" : String) ∈ c10Bad))
        simp [Frame.get?, List.find?, hne])).1,
   (C10_distortion_depends_only_on_phase1 ⟨[("U2 THD", [qcell 1])]⟩ ⟨[("U2 THD", [qcell 2])]⟩
      Q.zero (by decide)
      (fun c hcm => by
        have hne : (("U2 THD" : String) == c) = false := by
          rw [beq_eq_false_iff_ne]
          intro e
          exact hcm (e ▸ (by decide : ("U2 THD" : String) ∈ c10Bad))
        simp [Frame.get?, List.find?, hne])).2.1⟩

/-! ### Structure of successful timestamp parses (toward C6) -/

theorem digitsThen_some (c : Char) (lo hi : Nat) (l : List Char) (n : Nat) (r : List Char)
    (h : digitsThen c lo hi l = some (n, r)) :
    l = l.takeWhile Char.isDigit ++ c :: r ∧
    (∀ x ∈ l.takeWhile Char.isDigit, x.isDigit = true) ∧
    lo ≤ (l.takeWhile Char.isDigit).length ∧ (l.takeWhile Char.isDigit).length ≤ hi := by
  unfold digitsThen at h
  by_cases hc : lo ≤ (l.takeWhile Char.isDigit).length ∧ (l.takeWhile Char.isDigit).length ≤ hi
  · rw [if_pos hc] at h
    cases hd : l.dropWhile Char.isDigit with
    | nil => rw [hd] at h; exact absurd h (by simp)
    | cons c2 r2 =>
      rw [hd] at h
      dsimp only at h
      by_cases hcc : c2 = c
      · rw [if_pos hcc] at h
        simp only [Option.some.injEq, Prod.mk.injEq] at h
        refine ⟨?_, fun x hx => List.mem_takeWhile_imp hx, hc.1, hc.2⟩
        subst hcc
        rw [← h.2]
        conv_lhs => rw [← List.takeWhile_append_dropWhile Char.isDigit l]
        rw [hd]
      · rw [if_neg hcc] at h; exact absurd h (by simp)
  · rw [if_neg hc] at h; exact absurd h (by simp)

theorem digitsEnd_some (lo hi : Nat) (l : List Char) (n : Nat)
    (h : digitsEnd lo hi l = some n) :
    (∀ x ∈ l, x.isDigit = true) ∧ lo ≤ l.length ∧ l.length ≤ hi := by
  unfold digitsEnd at h
  by_cases hc : (lo ≤ (l.takeWhile Char.isDigit).length ∧
      (l.takeWhile Char.isDigit).length ≤ hi) ∧ l.dropWhile Char.isDigit = []
  · have hl : l = l.takeWhile Char.isDigit := by
      conv_lhs => rw [← List.takeWhile_append_dropWhile Char.isDigit l]
      rw [hc.2, List.append_nil]
    have hlen : l.length = (l.takeWhile Char.isDigit).length := by
      conv_lhs => rw [hl]
    refine ⟨fun x hx => List.mem_takeWhile_imp (hl ▸ hx), ?_, ?_⟩
    · rw [hlen]
      exact hc.1.1
    · rw [hlen]
      exact hc.1.2
  · rw [if_neg hc] at h; exact absurd h (by simp)

theorem parseDMYHMS_shape (l : List Char) (t : Int) (h : parseDMYHMS l = some t) :
    ∃ d1 d2 d3 g1 g2 g3 : List Char,
      l = d1 ++ '/' :: (d2 ++ '/' :: (d3 ++ ' ' :: (g1 ++ ':' :: (g2 ++ ':' :: g3)))) ∧
      (∀ x ∈ d1, x.isDigit = true) ∧ (∀ x ∈ d2, x.isDigit = true) ∧
      (∀ x ∈ d3, x.isDigit = true) ∧ (∀ x ∈ g1, x.isDigit = true) ∧
      (∀ x ∈ g2, x.isDigit = true) ∧ (∀ x ∈ g3, x.isDigit = true) ∧
      1 ≤ d1.length ∧ d1.length ≤ 2 ∧ 1 ≤ d2.length ∧ d2.length ≤ 2 ∧ d3.length = 4 := by
  unfold parseDMYHMS at h
  cases h1 : digitsThen '/' 1 2 l with
  | none => rw [h1] at h; exact absurd h (by simp)
  | some v1 =>
  obtain ⟨n1, l1⟩ := v1
  rw [h1] at h
  dsimp only at h
  cases h2 : digitsThen '/' 1 2 l1 with
  | none => rw [h2] at h; exact absurd h (by simp)
  | some v2 =>
  obtain ⟨n2, l2⟩ := v2
  rw [h2] at h
  dsimp only at h
  cases h3 : digitsThen ' ' 4 4 l2 with
  | none => rw [h3] at h; exact absurd h (by simp)
  | some v3 =>
  obtain ⟨n3, l3⟩ := v3
  rw [h3] at h
  dsimp only at h
  cases h4 : digitsThen ':' 1 2 l3 with
  | none => rw [h4] at h; exact absurd h (by simp)
  | some v4 =>
  obtain ⟨n4, l4⟩ := v4
  rw [h4] at h
  dsimp only at h
  cases h5 : digitsThen ':' 1 2 l4 with
  | none => rw [h5] at h; exact absurd h (by simp)
  | some v5 =>
  obtain ⟨n5, l5⟩ := v5
  rw [h5] at h
  dsimp only at h
  cases h6 : digitsEnd 1 2 l5 with
  | none => rw [h6] at h; exact absurd h (by simp)
  | some n6 =>
  obtain ⟨e1, q1, b1a, b1b⟩ := digitsThen_some _ _ _ _ _ _ h1
  obtain ⟨e2, q2, b2a, b2b⟩ := digitsThen_some _ _ _ _ _ _ h2
  obtain ⟨e3, q3, b3a, b3b⟩ := digitsThen_some _ _ _ _ _ _ h3
  obtain ⟨e4, q4, _, _⟩ := digitsThen_some _ _ _ _ _ _ h4
  obtain ⟨e5, q5, _, _⟩ := digitsThen_some _ _ _ _ _ _ h5
  obtain ⟨q6, _, _⟩ := digitsEnd_some _ _ _ _ h6
  refine ⟨l.takeWhile Char.isDigit, l1.takeWhile Char.isDigit, l2.takeWhile Char.isDigit,
    l3.takeWhile Char.isDigit, l4.takeWhile Char.isDigit, l5,
    ?_, q1, q2, q3, q4, q5, q6, b1a, b1b, b2a, b2b, ?_⟩
  · conv_lhs => rw [e1]
    conv_lhs => rw [e2]
    conv_lhs => rw [e3]
    conv_lhs => rw [e4]
    conv_lhs => rw [e5]
  · omega

theorem digits_count_zero (m : List Char) (hm : ∀ x ∈ m, x.isDigit = true) :
    m.count '/' = 0 ∧ m.count ' ' = 0 := by
  constructor <;> rw [List.count_eq_zero] <;> intro hmem <;>
    exact absurd (hm _ hmem) (by decide)

theorem parse_counts (l : List Char) (t : Int) (h : parseDMYHMS l = some t) :
    l.count '/' = 2 ∧ l.count ' ' = 1 := by
  obtain ⟨d1, d2, d3, g1, g2, g3, heq, k1, k2, k3, k4, k5, k6, _, _, _, _, _⟩ :=
    parseDMYHMS_shape l t h
  have w1 : (('/' : Char) == '/') = true := by decide
  have w2 : ((' ' : Char) == '/') = false := by decide
  have w3 : ((':' : Char) == '/') = false := by decide
  have w4 : (('/' : Char) == ' ') = false := by decide
  have w5 : ((' ' : Char) == ' ') = true := by decide
  have w6 : ((':' : Char) == ' ') = false := by decide
  subst heq
  simp [List.count_append, List.count_cons, w1, w2, w3, w4, w5, w6,
    (digits_count_zero d1 k1).1, (digits_count_zero d1 k1).2,
    (digits_count_zero d2 k2).1, (digits_count_zero d2 k2).2,
    (digits_count_zero d3 k3).1, (digits_count_zero d3 k3).2,
    (digits_count_zero g1 k4).1, (digits_count_zero g1 k4).2,
    (digits_count_zero g2 k5).1, (digits_count_zero g2 k5).2,
    (digits_count_zero g3 k6).1, (digits_count_zero g3 k6).2]

/-! ### `split('/')` and `int()` facts (toward C6) -/

theorem splitSlash_ne_nil (l : List Char) : splitSlash l ≠ [] := by
  cases l with
  | nil => simp [splitSlash]
  | cons c r =>
    unfold splitSlash
    by_cases hc : c = '/'
    · simp [hc]
    · rw [if_neg hc]
      cases splitSlash r <;> simp

theorem splitSlash_no_slash (a : List Char) (ha : a.count '/' = 0) : splitSlash a = [a] := by
  induction a with
  | nil => rfl
  | cons c r ih =>
    have hc : c ≠ '/' := by
      intro e
      subst e
      simp [List.count_cons] at ha
    have hr : r.count '/' = 0 := by
      rw [List.count_cons] at ha
      omega
    unfold splitSlash
    rw [if_neg hc, ih hr]

theorem splitSlash_append (a b : List Char) (ha : a.count '/' = 0) :
    splitSlash (a ++ '/' :: b) = a :: splitSlash b := by
  induction a with
  | nil =>
    simp only [List.nil_append]
    conv_lhs => rw [splitSlash]
    rw [if_pos rfl]
  | cons c r ih =>
    have hc : c ≠ '/' := by
      intro e
      subst e
      simp [List.count_cons] at ha
    have hr : r.count '/' = 0 := by
      rw [List.count_cons] at ha
      omega
    simp only [List.cons_append]
    conv_lhs => rw [splitSlash]
    rw [if_neg hc, ih hr]

theorem splitSlash_length (l : List Char) : (splitSlash l).length = l.count '/' + 1 := by
  induction l with
  | nil => rfl
  | cons c r ih =>
    unfold splitSlash
    by_cases hc : c = '/'
    · subst hc
      simp only [if_pos rfl, List.length_cons, List.count_cons]
      simp [ih]
    · rw [if_neg hc]
      have hcount : (c :: r).count '/' = r.count '/' := by
        rw [List.count_cons]
        have : (c == '/') = false := by
          rw [beq_eq_false_iff_ne]
          exact hc
        simp [this]
      cases hsp : splitSlash r with
      | nil => exact absurd hsp (splitSlash_ne_nil r)
      | cons f rest =>
        rw [hcount, ← ih, hsp]
        simp

theorem space_split_unique (x y x2 y2 : List Char) (hx : x.count ' ' = 0)
    (hx2 : x2.count ' ' = 0) (he : x ++ ' ' :: y = x2 ++ ' ' :: y2) : x = x2 ∧ y = y2 := by
  induction x generalizing x2 with
  | nil =>
    cases x2 with
    | nil =>
      simp only [List.nil_append] at he
      exact ⟨rfl, (List.cons.injEq _ _ _ _ ▸ he).2⟩
    | cons b s =>
      simp only [List.nil_append, List.cons_append, List.cons.injEq] at he
      rw [← he.1] at hx2
      simp [List.count_cons] at hx2
  | cons a r ih =>
    cases x2 with
    | nil =>
      simp only [List.nil_append, List.cons_append, List.cons.injEq] at he
      rw [he.1] at hx
      simp [List.count_cons] at hx
    | cons b s =>
      simp only [List.cons_append, List.cons.injEq] at he
      have hr : r.count ' ' = 0 := by
        rw [List.count_cons] at hx
        omega
      have hs : s.count ' ' = 0 := by
        rw [List.count_cons] at hx2
        omega
      obtain ⟨h1, h2⟩ := ih s hr hs he.2
      exact ⟨by rw [he.1, h1], h2⟩

theorem digit_not_ws (x : Char) (hx : x.isDigit = true) : isWsChar x = false := by
  unfold isWsChar
  have h1 : (x = ' ') = False := eq_false fun e => by subst e; exact absurd hx (by decide)
  have h2 : (x = '\t') = False := eq_false fun e => by subst e; exact absurd hx (by decide)
  have h3 : (x = '\n') = False := eq_false fun e => by subst e; exact absurd hx (by decide)
  have h4 : (x = '\r') = False := eq_false fun e => by subst e; exact absurd hx (by decide)
  have h5 : (x = '\x0b') = False := eq_false fun e => by subst e; exact absurd hx (by decide)
  have h6 : (x = '\x0c') = False := eq_false fun e => by subst e; exact absurd hx (by decide)
  simp [h1, h2, h3, h4, h5, h6]

theorem dropWhile_ws_digits (m : List Char) (hm : ∀ x ∈ m, x.isDigit = true) :
    m.dropWhile isWsChar = m := by
  cases m with
  | nil => rfl
  | cons a r =>
    rw [List.dropWhile_cons]
    rw [digit_not_ws a (hm a (List.mem_cons_self _ _))]
    simp

theorem trimWs_digits (m : List Char) (hm : ∀ x ∈ m, x.isDigit = true) : trimWs m = m := by
  unfold trimWs
  rw [dropWhile_ws_digits m hm]
  rw [dropWhile_ws_digits m.reverse (fun x hx => hm x (List.mem_reverse.mp hx))]
  exact List.reverse_reverse m

theorem digitsVal_digits (m : List Char) :
    ∀ acc : Nat, (∀ x ∈ m, x.isDigit = true) → (digitsVal m acc).isSome = true := by
  induction m with
  | nil => intro acc _; rfl
  | cons a r ih =>
    intro acc hm
    have ha := hm a (List.mem_cons_self _ _)
    have hu : a ≠ '_' := fun e => by rw [e] at ha; exact absurd ha (by decide)
    rw [digitsVal.eq_def]
    simp only [if_neg hu]
    rw [ha]
    simp only [if_true]
    exact ih _ (fun x hx => hm x (List.mem_cons_of_mem _ hx))

theorem pyParseInt_digits (ds : List Char) (h1 : ds ≠ []) (h2 : ∀ x ∈ ds, x.isDigit = true) :
    (pyParseInt ds).isSome = true := by
  unfold pyParseInt
  rw [trimWs_digits ds h2]
  cases ds with
  | nil => exact absurd rfl h1
  | cons a r =>
    have ha := h2 a (List.mem_cons_self _ _)
    have hplus : a ≠ '+' := fun e => by rw [e] at ha; exact absurd ha (by decide)
    have hminus : a ≠ '-' := fun e => by rw [e] at ha; exact absurd ha (by decide)
    have hsome : (pyParseNat (a :: r)).isSome = true := by
      unfold pyParseNat
      dsimp only
      rw [ha]
      simp only [if_true]
      exact digitsVal_digits r _ (fun x hx => h2 x (List.mem_cons_of_mem _ hx))
    split
    · next heq =>
      injection heq with hh ht
      exact absurd hh hplus
    · next heq =>
      injection heq with hh ht
      exact absurd hh hminus
    · rcases hp : pyParseNat (a :: r) with _ | v
      · rw [hp] at hsome
        exact absurd hsome (by simp)
      · rfl

/-! ### The two-stage date failure path (C6) -/

theorem thai_malformed_id (s : String) (h : thaiMalformed s = true) :
    thai_to_gregorian_year s = s := by
  unfold thai_to_gregorian_year
  unfold thaiMalformed at h
  cases hs : splitSlash s.data with
  | nil => rfl
  | cons p0 rest =>
    cases rest with
    | nil => rfl
    | cons p1 rest2 =>
      cases rest2 with
      | nil => rfl
      | cons p2 rest3 =>
        dsimp only at h ⊢
        cases hq0 : pyParseInt p0 with
        | none => rfl
        | some d =>
          cases hq1 : pyParseInt p1 with
          | none => rfl
          | some m =>
            cases hq2 : pyParseInt p2 with
            | none => rfl
            | some y =>
              rw [hs] at h
              dsimp only at h
              rw [hq0, hq1, hq2] at h
              simp at h

theorem thai_wellformed (s : String) (p0 p1 p2 : List Char) (rest : List (List Char))
    (d m y : Int) (hs : splitSlash s.data = p0 :: p1 :: p2 :: rest)
    (h0 : pyParseInt p0 = some d) (h1 : pyParseInt p1 = some m)
    (h2 : pyParseInt p2 = some y) :
    thai_to_gregorian_year s =
      String.mk (pad2 d ++ '/' :: (pad2 m ++ '/' :: (toString (y - 543)).data)) := by
  unfold thai_to_gregorian_year
  rw [hs]
  dsimp only
  rw [h0, h1, h2]

theorem thai_malformed_dropped (s t : String) (h : thaiMalformed s = true)
    (ht1 : t.data.count '/' = 0) (ht2 : t.data.count ' ' = 0) :
    parseTimestamp (thai_to_gregorian_year s) t = none := by
  rw [thai_malformed_id s h]
  unfold parseTimestamp
  rcases ho : parseDMYHMS (s.data ++ ' ' :: t.data) with _ | tv
  · rfl
  · exfalso
    obtain ⟨hsl, hsp⟩ := parse_counts _ _ ho
    have w1 : ((' ' : Char) == '/') = false := by decide
    have w2 : ((' ' : Char) == ' ') = true := by decide
    have w3 : (('/' : Char) == ' ') = false := by decide
    have w4 : ((':' : Char) == ' ') = false := by decide
    have hs_slash : s.data.count '/' = 2 := by
      rw [List.count_append, List.count_cons, ht1, w1] at hsl
      simp at hsl
      omega
    have hs_space : s.data.count ' ' = 0 := by
      rw [List.count_append, List.count_cons, ht2, w2] at hsp
      simp at hsp
      omega
    obtain ⟨d1, d2, d3, g1, g2, g3, heq, k1, k2, k3, k4, k5, k6, hb1a, hb1b, hb2a, hb2b,
      hlen3⟩ := parseDMYHMS_shape _ _ ho
    have heq2 : s.data ++ ' ' :: t.data =
        (d1 ++ '/' :: (d2 ++ '/' :: d3)) ++ ' ' :: (g1 ++ ':' :: (g2 ++ ':' :: g3)) := by
      rw [heq]
      simp [List.append_assoc]
    have hD_space : (d1 ++ '/' :: (d2 ++ '/' :: d3)).count ' ' = 0 := by
      rw [List.count_append, List.count_cons, List.count_append, List.count_cons,
        (digits_count_zero d1 k1).2, (digits_count_zero d2 k2).2,
        (digits_count_zero d3 k3).2, w3]
      simp
    obtain ⟨hpre, hsuf⟩ :=
      space_split_unique s.data t.data _ _ hs_space hD_space heq2
    have hsplit : splitSlash s.data = [d1, d2, d3] := by
      rw [hpre]
      rw [splitSlash_append d1 _ (digits_count_zero d1 k1).1]
      rw [splitSlash_append d2 _ (digits_count_zero d2 k2).1]
      rw [splitSlash_no_slash d3 (digits_count_zero d3 k3).1]
    unfold thaiMalformed at h
    rw [hsplit] at h
    dsimp only at h
    have hne1 : d1 ≠ [] := by
      intro e
      rw [e] at hb1a
      simp at hb1a
    have hne2 : d2 ≠ [] := by
      intro e
      rw [e] at hb2a
      simp at hb2a
    have hne3 : d3 ≠ [] := by
      intro e
      rw [e] at hlen3
      simp at hlen3
    rcases hq1 : pyParseInt d1 with _ | v1
    · have := pyParseInt_digits d1 hne1 k1
      rw [hq1] at this
      exact absurd this (by simp)
    rcases hq2 : pyParseInt d2 with _ | v2
    · have := pyParseInt_digits d2 hne2 k2
      rw [hq2] at this
      exact absurd this (by simp)
    rcases hq3 : pyParseInt d3 with _ | v3
    · have := pyParseInt_digits d3 hne3 k3
      rw [hq3] at this
      exact absurd this (by simp)
    rw [hq1, hq2, hq3] at h
    simp at h

/-- C6 (counterexample): a date string with four `/`-fields - a "wrong field
count" input the claim says must pass through unchanged - is in fact
converted: only `parts[0..2]` are read, the year is shifted, and the extra
field is discarded. -/
theorem C6_four_fields_are_converted :
    thai_to_gregorian_year "1/2/2543/9" = "01/02/2000" ∧
    ("01/02/2000" : String) ≠ "1/2/2543/9" := by decide

/-- C6 (amended): a date string whose first three `/`-fields parse as
integers (three or more fields) is rebuilt as `dd/mm/(year-543)` with any
extra fields discarded; every other date string (fewer than three fields or a
non-integer among the first three) is returned unchanged and then fails the
timestamp parse - whatever slash-free, space-free time string accompanies
it - so the row is dropped rather than the pipeline failing. -/
theorem C6_thai_year_two_stage (s t : String) :
    (∀ (p0 p1 p2 : List Char) (rest : List (List Char)) (d m y : Int),
      splitSlash s.data = p0 :: p1 :: p2 :: rest →
      pyParseInt p0 = some d → pyParseInt p1 = some m → pyParseInt p2 = some y →
      thai_to_gregorian_year s =
        String.mk (pad2 d ++ '/' :: (pad2 m ++ '/' :: (toString (y - 543)).data))) ∧
    (thaiMalformed s = true → thai_to_gregorian_year s = s) ∧
    (thaiMalformed s = true → t.data.count '/' = 0 → t.data.count ' ' = 0 →
      parseTimestamp (thai_to_gregorian_year s) t = none) :=
  ⟨fun p0 p1 p2 rest d m y hs h0 h1 h2 => thai_wellformed s p0 p1 p2 rest d m y hs h0 h1 h2,
   fun h => thai_malformed_id s h,
   fun h ht1 ht2 => thai_malformed_dropped s t h ht1 ht2⟩

theorem C6_thai_year_two_stage_witness :
    thai_to_gregorian_year "25/12/2566" =
      String.mk (pad2 25 ++ '/' :: (pad2 12 ++ '/' :: (toString (2566 - 543 : Int)).data)) ∧
    thai_to_gregorian_year "1/x/2543" = "1/x/2543" ∧
    parseTimestamp (thai_to_gregorian_year "1/x/2543") "10:00:00" = none :=
  ⟨(C6_thai_year_two_stage "25/12/2566" "10:00:00").1 ['2', '5'] ['1', '2']
      ['2', '5', '6', '6'] [] 25 12 2566 (by decide) (by decide) (by decide) (by decide),
   (C6_thai_year_two_stage "1/x/2543" "10:00:00").2.1 (by decide),
   (C6_thai_year_two_stage "1/x/2543" "10:00:00").2.2 (by decide) (by decide) (by decide)⟩
